import Mathlib

/-!
Verification of the `stimulus` multi-target code generator against its
natural-language specification.

The development shallowly embeds the relevant parts of the Python sources:

* `src/stimulus/lexer.py` — the indentation-sensitive scanner (`tokenize`);
* `src/stimulus/parser.py` — the stack discipline of the structural parser;
* `src/stimulus/model/parameters.py` and `src/stimulus/model/functions.py` —
  the descriptor model (parameter grammar, dependency resolution, parameter
  reordering, merge semantics);
* `src/stimulus/generators/base.py` — the legacy descriptor, ignore-list
  filtering with memoization, and the block-based generation engine;
* `src/stimulus/generators/r.py` — the R backends (`RRCodeGenerator`,
  `RCCodeGenerator.chunk_outconv`).

Python streams become lists of lines, Python dicts become association lists
with Python's insertion-order semantics, exceptions become `Except`, and the
generator objects become explicit state records that every stateful
operation threads.
-/

namespace Stimulus

/-! ## Generic association-list helpers (Python `dict` semantics)

Python dictionaries preserve insertion order; assigning to an existing key
keeps its position, assigning to a fresh key appends it at the end.
-/

/-- Lookup of the value stored under `key` (first matching entry). -/
def alookup {α : Type} : List (String × α) → String → Option α
  | [], _ => none
  | (k, v) :: t, key => if k = key then some v else alookup t key

/-- The keys of an association list, in order. -/
def akeys {α : Type} (l : List (String × α)) : List String :=
  l.map Prod.fst

/-- Python `d[key] = v`: replace in place if the key exists, else append. -/
def setEntry {α : Type} : List (String × α) → String → α → List (String × α)
  | [], key, v => [(key, v)]
  | (k, w) :: t, key, v =>
      if k = key then (k, v) :: t else (k, w) :: setEntry t key v

/-- Python `d.pop(key, default)`: drop the first entry stored under `key`. -/
def removeEntry {α : Type} : List (String × α) → String → List (String × α)
  | [], _ => []
  | (k, w) :: t, key => if k = key then t else (k, w) :: removeEntry t key

/-- Python set union on lists: keep the left operand, append fresh members. -/
def listUnion (a b : List String) : List String :=
  a ++ b.filter (fun x => decide (x ∉ a))

/-! ## Character-level helpers shared by the lexer and the parameter grammar -/

/-- The characters that Python's `[ \t]` character class accepts. -/
def isIndentChar (c : Char) : Bool :=
  c == ' ' || c == '\t'

/-- ASCII whitespace as accepted by Python's `str.strip` and `\s`. -/
def isPySpace (c : Char) : Bool :=
  c == ' ' || c == '\t' || c == '\n' || c == '\r' || c == '\x0b' || c == '\x0c'

/-- Python `str.strip()` on an explicit character list. -/
def trimChars (l : List Char) : List Char :=
  ((l.dropWhile isPySpace).reverse.dropWhile isPySpace).reverse

/-- Python `str.strip()` on a string. -/
def pyStrip (s : String) : String :=
  String.mk (trimChars s.toList)

/-- Python `str.split(sep)` for a single-character separator: all pieces,
empty pieces preserved. -/
def splitChar (sep : Char) : List Char → List (List Char)
  | [] => [[]]
  | c :: t =>
      if c = sep then [] :: splitChar sep t
      else
        match splitChar sep t with
        | [] => [[c]]
        | p :: ps => (c :: p) :: ps

/-- Python `str.split(sep, 1)` for a single-character separator: at most one
split, at the first occurrence. -/
def splitOnceChar (sep : Char) : List Char → List (List Char)
  | [] => [[]]
  | c :: t =>
      if c = sep then [[], t]
      else
        match splitOnceChar sep t with
        | [] => [[c]]
        | p :: ps => (c :: p) :: ps

/-- Whether `pat` occurs as a contiguous sublist of `l` (Python `in` on
strings). -/
def containsSub (pat : List Char) : List Char → Bool
  | [] => decide (pat = [])
  | c :: t => decide ((c :: t).take pat.length = pat) || containsSub pat t

/-- Python `str.split(sub, 1)` for a multi-character separator: split at the
first occurrence of the substring, if any. -/
def splitOnceSub (pat : List Char) : List Char → List (List Char)
  | [] => [[]]
  | c :: t =>
      if (c :: t).take pat.length = pat ∧ pat ≠ [] then [[], (c :: t).drop pat.length]
      else
        match splitOnceSub pat t with
        | [] => [[c]]
        | p :: ps => (c :: p) :: ps

/-- One pass of Python `str.replace(pat, rep)` over a character list, with a
step budget.  Each step consumes at least one character of the input, so any
budget of at least `l.length + 1` steps computes the full replacement; the
wrapper below supplies it.  (A step budget instead of well-founded recursion
keeps the function reducible inside the kernel.) -/
def replaceChars (pat rep : List Char) : Nat → List Char → List Char
  | 0, l => l
  | _ + 1, [] => []
  | fuel + 1, c :: rest =>
      if (c :: rest).take pat.length = pat ∧ pat ≠ [] then
        rep ++ replaceChars pat rep fuel ((c :: rest).drop pat.length)
      else c :: replaceChars pat rep fuel rest

/-- Python `s.replace(pat, rep)` for a non-empty pattern (every use in the
sources has a literal non-empty pattern; an empty pattern returns the string
unchanged here). -/
def pyReplace (s pat rep : String) : String :=
  if pat.toList = [] then s
  else String.mk (replaceChars pat.toList rep.toList (s.toList.length + 1) s.toList)

/-- Python `str.lower()` (ASCII). -/
def pyToLower (s : String) : String :=
  String.mk (s.toList.map Char.toLower)

/-! ## Lexer (`src/stimulus/lexer.py`)

`tokenize` reads a stream line by line.  The embedding takes the stream as a
list of lines with their trailing newlines already removed; reaching the end
of the list plays the role of `readline` returning `""`.
-/

/-- Token variants emitted by the lexer (`TokenType` plus the carried value). -/
inductive Token where
  | indent : Token
  | dedent : Token
  | key (value : String) : Token
  | text (value : String) : Token
  deriving DecidableEq, Repr

/-- A parse error: the message and the line number it was raised with
(`ParseError` in `errors.py`). -/
structure PError where
  msg : String
  lineno : Nat
  deriving DecidableEq, Repr

/-- A line matching `^[ \t]*$`: skipped entirely by the lexer. -/
def isBlankLine (line : String) : Bool :=
  line.toList.all isIndentChar

/-- A line matching `^[ \t]*#`: a comment, skipped entirely by the lexer. -/
def isCommentLine (line : String) : Bool :=
  (line.toList.dropWhile isIndentChar).head? == some '#'

/-- The width of the leading `[ \t]*` run of a line (`match.span()[1]`). -/
def indentWidth (line : String) : Nat :=
  (line.toList.takeWhile isIndentChar).length

/-- The dedent loop of `tokenize` (lines 103–105): pop every stacked level
that is deeper than `lvl`, counting the pops.  The top of the stack is the
head of the list. -/
def popToLevel (lvl : Nat) : List Nat → Nat × List Nat
  | [] => (0, [])
  | t :: s =>
      if lvl < t then
        let r := popToLevel lvl s
        (r.1 + 1, r.2)
      else (0, t :: s)

/-- The indentation bookkeeping for one significant line (lines 99–108 of
`lexer.py`): push and emit `INDENT` when the line is deeper than the top of
the stack, otherwise pop to the line's level and emit one `DEDENT` per pop;
`none` models the `ParseError("Bad indentation")` raised when the dedent does
not land exactly on a stacked level. -/
def indentStep (stack : List Nat) (lvl : Nat) : Option (List Nat × List Token) :=
  if stack.headD 0 < lvl then some (lvl :: stack, [Token.indent])
  else
    let r := popToLevel lvl stack
    if lvl = r.2.headD 0 then some (r.2, List.replicate r.1 Token.dedent)
    else none

/-- The continuation-line loop of `tokenize` (lines 112–114): while the line
ends with a backslash, join the next raw line (stripped) after a `"\n  "`
soft indent.  Returns the joined line, the number of extra `readline` calls,
and the remaining lines. -/
def joinContinuations (line : String) : List String → String × Nat × List String
  | [] =>
      if line.toList.getLast? = some '\\' then
        (String.mk line.toList.dropLast ++ "\n  ", 1, [])
      else (line, 0, [])
  | l :: ls =>
      if line.toList.getLast? = some '\\' then
        let r := joinContinuations (String.mk line.toList.dropLast ++ "\n  " ++ pyStrip l) ls
        (r.1, r.2.1 + 1, r.2.2)
      else (line, 0, l :: ls)

/-- The key/value handling for one logical line (lines 117–135 of
`lexer.py`): split at the first colon; a colon with an empty key part raises
`Missing keyword`; a comma-separated key part fans out to several `KEY`
tokens; a non-empty value wraps in a synthetic `INDENT`/`TEXT`/`DEDENT`
block; a line without a colon is a bare `TEXT`. -/
def lineTokens (line : String) (lineno : Nat) : Except PError (List Token) :=
  match splitOnceChar ':' line.toList with
  | [_] => Except.ok [Token.text (pyStrip line)]
  | before :: after :: _ =>
      let key := pyStrip (String.mk before)
      let value := pyStrip (String.mk after)
      if key = "" then Except.error ⟨"Missing keyword", lineno⟩
      else
        let keys := (splitChar ',' key.toList).map (fun cs => pyStrip (String.mk cs))
        if value = "" then Except.ok (keys.map Token.key)
        else
          Except.ok (keys.flatMap
            (fun k => [Token.key k, Token.indent, Token.text value, Token.dedent]))
  | [] => Except.ok [Token.text (pyStrip line)]

/-- The main loop of `tokenize` with an explicit step budget: skip blank and
comment lines, do the indentation bookkeeping, join continuation lines, then
emit the tokens of the logical line; at end of stream emit one `DEDENT` per
still-open level.  Every step consumes at least one input line, so any
budget of at least `lines.length + 1` steps (which `tokenize` supplies)
never runs out; an exhausted budget reports an unreachable sentinel
error. -/
def tokenizeLoop : Nat → List Nat → Nat → List String → Except PError (List Token)
  | 0, _, _, _ => Except.error ⟨"out of fuel", 0⟩
  | _ + 1, stack, _, [] => Except.ok (List.replicate stack.length Token.dedent)
  | fuel + 1, stack, lineno, line :: rest =>
      if isBlankLine line || isCommentLine line then
        tokenizeLoop fuel stack (lineno + 1) rest
      else
        match indentStep stack (indentWidth line) with
        | none => Except.error ⟨"Bad indentation", lineno + 1⟩
        | some sr =>
            let jc := joinContinuations (pyStrip line) rest
            match lineTokens jc.1 (lineno + 1 + jc.2.1) with
            | Except.error e => Except.error e
            | Except.ok ltoks =>
                match tokenizeLoop fuel sr.1 (lineno + 1 + jc.2.1) jc.2.2 with
                | Except.error e => Except.error e
                | Except.ok ts => Except.ok (sr.2 ++ ltoks ++ ts)

/-- `tokenize` from `lexer.py`: the loop started with the base indentation
level `0` on the stack and line counter `0`. -/
def tokenize (lines : List String) : Except PError (List Token) :=
  tokenizeLoop (lines.length + 1) [0] 0 lines

/-! ## Stack-length abstraction of the structural parser
(`src/stimulus/parser.py`)

`Parser.parse` starts with a two-frame stack and, per token: `INDENT` pushes
a frame; `DEDENT` pops a frame and stores it into the frame below (so it
needs at least two frames); `KEY` pops a frame, possibly stores it into the
frame below, and pushes a replacement (it reads `stack[-1]` after the pop,
so it also needs at least two frames); `TEXT` writes into the top frame.
`parseStackRun n ts` runs exactly this stack-length discipline from a stack
of `n` frames and returns the final frame count, or `none` on underflow. -/
def parseStackRun : Nat → List Token → Option Nat
  | n, [] => some n
  | n, Token.indent :: ts => parseStackRun (n + 1) ts
  | n, Token.dedent :: ts => if 2 ≤ n then parseStackRun (n - 1) ts else none
  | n, Token.key _ :: ts => if 2 ≤ n then parseStackRun n ts else none
  | n, Token.text _ :: ts => if 1 ≤ n then parseStackRun n ts else none

/-! ## Attribute values (parsed YAML / `.def` data) and `deepmerge`

`FunctionDescriptor._obj` holds data parsed from YAML or from the legacy
`.def` format: strings, booleans, lists and (ordered) string-keyed mappings.
`model/functions.py` merges new data into it with `deepmerge.always_merger`:
mappings merge key by key, lists concatenate, and any other combination —
including two scalars or a type conflict — lets the new value override the
old one.
-/

/-- A value in an attribute map. -/
inductive Value where
  | str (s : String) : Value
  | vbool (b : Bool) : Value
  | vlist (items : List Value) : Value
  | vdict (entries : List (String × Value)) : Value

/-- Python truthiness for attribute values. -/
def Value.isTruthy : Value → Bool
  | Value.str s => s ≠ ""
  | Value.vbool b => b
  | Value.vlist l => !l.isEmpty
  | Value.vdict d => !d.isEmpty

mutual

/-- `deepmerge.always_merger.merge` on a pair of values: dict with dict
merges, list with list appends, everything else overrides with the new
value. -/
def mergeValue : Value → Value → Value
  | Value.vdict b, Value.vdict n => Value.vdict (mergeDict b n)
  | Value.vlist b, Value.vlist n => Value.vlist (b ++ n)
  | _, n => n
  termination_by base n => (sizeOf n, 0, 0)

/-- `deepmerge` on dictionaries: fold the entries of the new dictionary into
the base one. -/
def mergeDict : List (String × Value) → List (String × Value) → List (String × Value)
  | b, [] => b
  | b, (k, v) :: rest => mergeDict (mergeEntry b k v) rest
  termination_by base n => (sizeOf n, 1, 0)

/-- Merge a single key/value pair into a base dictionary: recurse into an
existing entry, append a fresh one. -/
def mergeEntry : List (String × Value) → String → Value → List (String × Value)
  | [], k, v => [(k, v)]
  | (k2, w) :: b, k, v =>
      if k2 = k then (k2, mergeValue w v) :: b
      else (k2, w) :: mergeEntry b k v
  termination_by base k v => (sizeOf v, 0, sizeOf base + 1)

end

/-- An attribute map: the `_obj` payload of a descriptor. -/
abbrev AttrMap := List (String × Value)

/-! ## Parameter grammar (`src/stimulus/model/parameters.py`) -/

namespace Model

/-- `ParamMode`: the modes of function parameters. -/
inductive ParamMode where
  | IN : ParamMode
  | OUT : ParamMode
  | INOUT : ParamMode
  deriving DecidableEq, Repr

/-- `ParamMode.is_input`. -/
def ParamMode.isInput : ParamMode → Bool
  | ParamMode.IN => true
  | ParamMode.INOUT => true
  | ParamMode.OUT => false

/-- `ParamMode.is_output`. -/
def ParamMode.isOutput : ParamMode → Bool
  | ParamMode.OUT => true
  | ParamMode.INOUT => true
  | ParamMode.IN => false

/-- `ParamSpec.mode_str`: the upper-case name of the mode. -/
def ParamMode.modeStr : ParamMode → String
  | ParamMode.IN => "IN"
  | ParamMode.OUT => "OUT"
  | ParamMode.INOUT => "INOUT"

/-- `ParamMode(value)` on an already lower-cased string. -/
def ParamMode.ofLower : String → Option ParamMode
  | "in" => some ParamMode.IN
  | "out" => some ParamMode.OUT
  | "inout" => some ParamMode.INOUT
  | _ => none

/-- `ParamSpec` from `model/parameters.py`.  `nameOverride` models the
`name_override` attribute that `_parse_parameter_specifications` assigns
dynamically when processing `PARAM_NAMES`. -/
structure ParamSpec where
  name : String
  type : String
  mode : ParamMode := ParamMode.IN
  default : Option String := none
  isOptional : Bool := false
  isPrimary : Bool := false
  dependencies : List String := []
  outputNameOverride : Option String := none
  nameOverride : Option Value := none

/-- `ParamSpec.is_input`. -/
def ParamSpec.isInput (p : ParamSpec) : Bool := p.mode.isInput

/-- `ParamSpec.is_output`. -/
def ParamSpec.isOutput (p : ParamSpec) : Bool := p.mode.isOutput

/-- `ParamSpec.name_as_output`: the output name override if set, else the
declared name. -/
def ParamSpec.nameAsOutput (p : ParamSpec) : String :=
  p.outputNameOverride.getD p.name

/-- The flag-stripping loop at the start of `ParamSpec.from_string`: strip
any sequence of leading `PRIMARY` / `OPTIONAL` keywords, remembering which
ones were present.  Each pass shortens the text, so the step budget the
caller supplies (`value.length + 1`) never runs out. -/
def stripFlags : Nat → List Char → Bool → Bool → Bool × Bool × List Char
  | 0, value, primary, optional => (primary, optional, value)
  | fuel + 1, value, primary, optional =>
      if value.take 7 = "PRIMARY".toList then
        stripFlags fuel (trimChars (value.drop 7)) true optional
      else if value.take 8 = "OPTIONAL".toList then
        stripFlags fuel (trimChars (value.drop 8)) primary true
      else (primary, optional, value)

/-- `ParamSpec.from_string`: parse one comma-separated item of a `PARAMS`
attribute.  Index errors on malformed items surface as `Except.error`
(Python raises `IndexError`); an unknown mode keyword surfaces as the
`ValueError` that `ParamMode(...)` raises. -/
def paramSpecFromString (value : String) : Except String ParamSpec := do
  let v0 := trimChars value.toList
  let fl := stripFlags (v0.length + 1) v0 false false
  let parts := splitOnceChar ' ' fl.2.2
  let staged ←
    match parts with
    | [] => Except.error "IndexError"
    | p0 :: rest =>
        if (["OUT", "IN", "INOUT"] : List String).contains (String.mk p0) then
          match rest with
          | [] => Except.error "IndexError"
          | p1 :: _ => Except.ok (p0 :: splitOnceChar ' ' p1)
        else
          match rest with
          | [] => Except.error "IndexError"
          | p1 :: _ => Except.ok ("IN".toList :: p0 :: splitOnceChar ' ' p1)
  match staged with
  | m :: t :: nm :: rest =>
      let pieces := if containsSub ['='] nm then [m, t] ++ splitOnceChar '=' nm
                    else m :: t :: nm :: rest
      match pieces with
      | m2 :: t2 :: nm2 :: rest2 =>
          let modeS := String.mk (trimChars m2)
          let typeS := String.mk (trimChars t2)
          let nameS := String.mk (trimChars nm2)
          let defS := rest2.head?.map (fun d => String.mk (trimChars d))
          match ParamMode.ofLower (pyToLower modeS) with
          | some md =>
              Except.ok { name := nameS, type := typeS, mode := md, default := defS,
                          isPrimary := fl.1, isOptional := fl.2.1 }
          | none => Except.error "ValueError"
      | _ => Except.error "IndexError"
  | _ => Except.error "IndexError"

/-- Python `{k: v for ...}`: build a dict from a row list with insertion
semantics (a repeated key keeps its first position and the last value). -/
def buildPyDict {α : Type} (rows : List (String × α)) : List (String × α) :=
  rows.foldl (fun acc r => setEntry acc r.1 r.2) []

end Model

/-! ## Function descriptors (`src/stimulus/model/functions.py`) -/

namespace Model

/-- `FunctionDescriptor` from `model/functions.py`.  `parametersCache` is the
`_parameters` field (`None` meaning "not derived yet") and `paramOrder` is
`_param_order`. -/
structure FunctionDescriptor where
  name : String
  obj : AttrMap := []
  parametersCache : Option (List (String × ParamSpec)) := none
  paramOrder : List String := []
  flags : List String := []
  ignoredBy : List String := []
  returnType : String := "ERROR"

/-- `FunctionDescriptor._parse_dependencies`: split the `DEPS` attribute on
commas, each item at its first `"ON"` substring, and the dependency part at
its first space; assemble a dict from parameter name to its dependency
tuple.  A missing `"ON"` makes the `item[1]` access raise `IndexError`; a
truthy non-string `DEPS` value has no `.split` and raises
`AttributeError`. -/
def parseDependencies (obj : AttrMap) : Except String (List (String × List String)) := do
  let pieces ←
    match alookup obj "DEPS" with
    | none => Except.ok []
    | some v =>
        if v.isTruthy then
          match v with
          | Value.str s => Except.ok (splitChar ',' s.toList)
          | _ => Except.error "AttributeError"
        else Except.ok []
  let rows ← pieces.mapM (fun item => do
    let halves := (splitOnceSub "ON".toList (trimChars item)).map trimChars
    match halves with
    | a :: b :: _ =>
        Except.ok (String.mk a,
          (splitOnceChar ' ' b).map (fun d => String.mk (trimChars d)))
    | _ => Except.error "IndexError")
  Except.ok (buildPyDict rows)

/-- The `RuntimeError` message raised when a `DEPS` entry is declared on a
parameter that does not exist. -/
def depUnknownArgMsg (pname fname : String) : String :=
  "dependency declared on unknown argument '" ++ pname ++ "' of function '"
    ++ fname ++ "'"

/-- The `RuntimeError` message raised when `PARAM_NAMES` overrides a
parameter that does not exist. -/
def overrideUnknownParamMsg (pname fname : String) : String :=
  "parameter name was overridden for unknown parameter '" ++ pname
    ++ "' of function '" ++ fname ++ "'"

/-- `ParamSpec.add_dependency` applied inside an ordered parameter map:
append `dep` to the dependency list of the parameter stored under `pname`. -/
def addDependency (res : List (String × ParamSpec)) (pname dep : String) :
    List (String × ParamSpec) :=
  res.map (fun e =>
    if e.1 = pname then (e.1, { e.2 with dependencies := e.2.dependencies ++ [dep] })
    else e)

/-- The inner loop of the dependency-attachment pass: for each dependency of
one `DEPS` entry, look the declaring parameter up and append the dependency,
or fail with the `RuntimeError` naming the declaring parameter and the
function.  The dependency name itself is never looked up. -/
def attachOneDep (fname : String) (res : List (String × ParamSpec)) (pname : String) :
    List String → Except String (List (String × ParamSpec))
  | [] => Except.ok res
  | dep :: ds =>
      match alookup res pname with
      | some _ => attachOneDep fname (addDependency res pname dep) pname ds
      | none => Except.error (depUnknownArgMsg pname fname)

/-- The dependency-attachment pass of `_parse_parameter_specifications`
(lines 258–267): process the parsed `DEPS` entries in order. -/
def attachDependencies (fname : String) (res : List (String × ParamSpec)) :
    List (String × List String) → Except String (List (String × ParamSpec))
  | [] => Except.ok res
  | (pname, ds) :: rest => do
      let res2 ← attachOneDep fname res pname ds
      attachDependencies fname res2 rest

/-- The `PARAM_NAMES` pass of `_parse_parameter_specifications` (lines
269–278): set `name_override` on each named parameter, failing on an unknown
parameter name. -/
def applyNameOverrides (fname : String) (res : List (String × ParamSpec)) :
    List (String × Value) → Except String (List (String × ParamSpec))
  | [] => Except.ok res
  | (pname, newName) :: rest =>
      match alookup res pname with
      | some _ =>
          let ov := if newName.isTruthy then some newName else none
          applyNameOverrides fname
            (res.map (fun e =>
              if e.1 = pname then (e.1, { e.2 with nameOverride := ov }) else e))
            rest
      | none => Except.error (overrideUnknownParamMsg pname fname)

/-- `FunctionDescriptor._parse_parameter_specifications`: parse `PARAMS`
into an ordered map of `ParamSpec`s, attach the `DEPS` dependency edges, and
apply the `PARAM_NAMES` overrides. -/
def parseParameterSpecifications (d : FunctionDescriptor) :
    Except String (List (String × ParamSpec)) := do
  let items ←
    match alookup d.obj "PARAMS" with
    | none => Except.ok []
    | some v =>
        if ¬v.isTruthy then Except.ok []
        else
          match v with
          | Value.str s => Except.ok ((splitChar ',' s.toList).map String.mk)
          | Value.vlist l =>
              l.mapM (fun x =>
                match x with
                | Value.str s => Except.ok s
                | _ => Except.error "AttributeError")
          | Value.vdict entries => Except.ok (akeys entries)
          | Value.vbool _ =>
              Except.error "TypeError: PARAMS must be a string or a list"
  let specs ← items.mapM paramSpecFromString
  let result := buildPyDict (specs.map (fun s => (s.name, s)))
  let deps ← parseDependencies d.obj
  let result2 ← attachDependencies d.name result deps
  match alookup d.obj "PARAM_NAMES" with
  | some v =>
      if v.isTruthy then
        match v with
        | Value.vdict entries => applyNameOverrides d.name result2 entries
        | _ => Except.error "AttributeError"
      else Except.ok result2
  | none => Except.ok result2

/-- Extraction of the `PARAM_ORDER` token list (lines 285–296 of
`model/functions.py`): a falsy value yields no tokens, a string splits on
commas, an iterable lists its items, anything else raises `TypeError`. -/
def paramOrderTokens : Option Value → Except String (List String)
  | none => Except.ok []
  | some v =>
      if ¬v.isTruthy then Except.ok []
      else
        match v with
        | Value.str s => Except.ok ((splitChar ',' s.toList).map String.mk)
        | Value.vlist l =>
            l.mapM (fun x =>
              match x with
              | Value.str s => Except.ok s
              | _ => Except.error "AttributeError")
        | Value.vdict entries => Except.ok (akeys entries)
        | Value.vbool _ =>
            Except.error "TypeError: PARAM_ORDER must be a string or a list"

/-- The main loop of `_update_parameter_order` (lines 302–313): an explicit
name moves from `notSeen` to the order under construction; an ellipsis
records the current insertion position; any other token — a repeated or
unknown name — raises `RuntimeError`. -/
def updateOrderLoop (fname : String) :
    List String → List String → List String → Option Nat →
    Except String (List String × List String × Option Nat)
  | [], order, notSeen, restIdx => Except.ok (order, notSeen, restIdx)
  | tok :: toks, order, notSeen, restIdx =>
      let nm := pyStrip tok
      if nm ∈ notSeen then
        updateOrderLoop fname toks (order ++ [nm]) (notSeen.erase nm) restIdx
      else if nm = "..." then
        updateOrderLoop fname toks order notSeen (some order.length)
      else
        Except.error ("parameter '" ++ nm ++ "' appears twice in PARAM_ORDER for function '"
          ++ fname ++ "'")

/-- `FunctionDescriptor._update_parameter_order`: compute the final
parameter order from the declared parameter names and the `PARAM_ORDER`
attribute, inserting the parameters not explicitly named at the recorded
ellipsis position (or at the end). -/
def updateParameterOrder (fname : String) (paramNames : List String)
    (orderAttr : Option Value) : Except String (List String) := do
  let toks ← paramOrderTokens orderAttr
  let r ← updateOrderLoop fname toks [] paramNames none
  if r.2.1.isEmpty then Except.ok r.1
  else
    let idx := r.2.2.getD r.1.length
    Except.ok (r.1.take idx ++ r.2.1 ++ r.1.drop idx)

/-- The `parameters` property: return the cached parameter map, or derive it
(and the parameter order) and cache it. -/
def parametersOf (d : FunctionDescriptor) :
    Except String (List (String × ParamSpec) × FunctionDescriptor) :=
  match d.parametersCache with
  | some ps => Except.ok (ps, d)
  | none => do
      let ps ← parseParameterSpecifications d
      let po ← updateParameterOrder d.name (akeys ps) (alookup d.obj "PARAM_ORDER")
      Except.ok (ps, { d with parametersCache := some ps, paramOrder := po })

/-- Modelled from the spec: `model/base.py` (the `DescriptorMixin` mixin
providing `_parse_as_comma_separated_list`) is not part of the source tree —
only its callers in `model/functions.py` and `model/types.py` are.  Per the
spec (§4.4), `IGNORE`/`FLAGS` "values (string, comma-joined, or list) are
parsed into a set": a string splits along commas into stripped names, a
list contributes its string items, an absent or empty value contributes
nothing. -/
def parseAsCommaSeparatedList (obj : AttrMap) (key : String) : List String :=
  match alookup obj key with
  | none => []
  | some (Value.str s) =>
      if s = "" then []
      else (splitChar ',' s.toList).map (fun cs => String.mk (trimChars cs))
  | some (Value.vlist l) =>
      l.filterMap (fun v => match v with | Value.str s => some s | _ => none)
  | some _ => []

/-- Modelled from the spec: `_parse_as_boolean` from the missing
`model/base.py`, used for the `INTERNAL` attribute; an absent key yields
`none`, an explicit boolean yields itself, anything else is not interpreted
as a boolean here. -/
def parseAsBoolean (obj : AttrMap) (key : String) : Option Bool :=
  match alookup obj key with
  | some (Value.vbool b) => some b
  | _ => none

/-- `FunctionDescriptor.update_from` (lines 193–225 of
`model/functions.py`): reset `PARAMS`/`DEPS` to the empty string and
invalidate the parameter cache when the update redefines them, likewise
invalidate on `PARAM_NAMES`/`PARAM_ORDER`, deep-merge the update into the
raw attribute map, union the parsed `IGNORE` and lower-cased `FLAGS` lists
into the respective sets, apply `INTERNAL`, and pop a truthy `RETURN` into
`return_type`.  A non-string `RETURN` value is popped as well; its `str()`
conversion does not occur in this development and is left unmodelled. -/
def updateFrom (d : FunctionDescriptor) (obj : AttrMap) : FunctionDescriptor :=
  let hasP := decide ("PARAMS" ∈ akeys obj)
  let hasD := decide ("DEPS" ∈ akeys obj)
  let hasN := decide ("PARAM_NAMES" ∈ akeys obj)
  let hasO := decide ("PARAM_ORDER" ∈ akeys obj)
  let o1 := if hasP then setEntry d.obj "PARAMS" (Value.str "") else d.obj
  let o2 := if hasD then setEntry o1 "DEPS" (Value.str "") else o1
  let cache := if hasP || hasD || hasN || hasO then none else d.parametersCache
  let po := if hasO then [] else d.paramOrder
  let o3 := mergeDict o2 obj
  let ign := listUnion d.ignoredBy (parseAsCommaSeparatedList o3 "IGNORE")
  let flg := listUnion d.flags ((parseAsCommaSeparatedList o3 "FLAGS").map pyToLower)
  let flg2 :=
    match parseAsBoolean o3 "INTERNAL" with
    | some true => listUnion flg ["internal"]
    | some false => flg.filter (fun f => f ≠ "internal")
    | none => flg
  let rt :=
    match alookup o3 "RETURN" with
    | some (Value.str s) => if s ≠ "" then s else d.returnType
    | _ => d.returnType
  let o4 := removeEntry o3 "RETURN"
  { d with obj := o4, parametersCache := cache, paramOrder := po,
           ignoredBy := ign, flags := flg2, returnType := rt }

end Model

/-! ## Code-generator engine (`src/stimulus/generators/base.py`)

`generators/base.py` carries its own simplified `ParamSpec` and
`FunctionDescriptor` (no flags, plain string attribute values, and an
`update_from` that *replaces* `ignored_by`), plus the memoizing caches of
`CodeGeneratorBase` and the block-based composition strategy.  A generator
instance becomes an explicit `GenState` record that stateful operations
thread.
-/

namespace Gen

/-- `ParamSpec` from `generators/base.py`: the simplified record without
flags or overrides.  The `ParamMode` enum there is identical to the model
one, which this embedding reuses. -/
structure ParamSpec where
  name : String
  type : String
  mode : Model.ParamMode := Model.ParamMode.IN
  default : Option String := none
  deriving DecidableEq, Repr

/-- `FunctionDescriptor` from `generators/base.py`: a plain string-valued
attribute map, the set of generator names that ignore the function, and the
return type. -/
structure FunctionDescriptor where
  obj : List (String × String) := []
  ignoredBy : List String := []
  returnType : String := "ERROR"
  deriving DecidableEq, Repr

/-- `FunctionDescriptor.update_from` from `generators/base.py` (lines
98–110): `dict.update` the raw map, then *replace* `ignored_by` with the
parsed `IGNORE` value when it is a non-empty string, and overwrite
`return_type` with a non-empty `RETURN`. -/
def updateFrom (d : FunctionDescriptor) (obj : List (String × String)) :
    FunctionDescriptor :=
  let o := obj.foldl (fun acc e => setEntry acc e.1 e.2) d.obj
  let ign :=
    match alookup obj "IGNORE" with
    | some s =>
        if s ≠ "" then (splitChar ',' s.toList).map (fun p => String.mk (trimChars p))
        else d.ignoredBy
    | none => d.ignoredBy
  let rt :=
    match alookup obj "RETURN" with
    | some s => if s ≠ "" then s else d.returnType
    | none => d.returnType
  { obj := o, ignoredBy := ign, returnType := rt }

/-- The state of a `CodeGeneratorBase` instance: its name, the function
descriptors and type descriptors in load order, and the three memoization
caches. -/
structure GenState where
  name : String
  descriptors : List (String × FunctionDescriptor) := []
  types : List (String × Value) := []
  ignoreCache : List (String × Bool) := []
  paramCache : List (String × List (String × ParamSpec)) := []
  depsCache : List (String × List (String × List String)) := []

/-- `get_function_descriptor`: dictionary access, `KeyError` on a missing
name. -/
def getFunctionDescriptor (g : GenState) (fname : String) :
    Except String FunctionDescriptor :=
  match alookup g.descriptors fname with
  | some d => Except.ok d
  | none => Except.error "KeyError"

/-- `CodeGeneratorBase._parse_parameter_specification`: parse the `PARAMS`
string of one function into an ordered name-to-spec map (the variant without
`PRIMARY`/`OPTIONAL` flags). -/
def parseParameterSpecification (g : GenState) (fname : String) :
    Except String (List (String × ParamSpec)) := do
  let d ← getFunctionDescriptor g fname
  let items :=
    match alookup d.obj "PARAMS" with
    | some s => if s ≠ "" then splitChar ',' s.toList else []
    | none => []
  let rows ← items.mapM (fun item => do
    let parts := splitOnceChar ' ' (trimChars item)
    let staged ←
      match parts with
      | [] => Except.error "IndexError"
      | p0 :: rest =>
          if (["OUT", "IN", "INOUT"] : List String).contains (String.mk p0) then
            match rest with
            | [] => Except.error "IndexError"
            | p1 :: _ => Except.ok (p0 :: splitOnceChar ' ' p1)
          else
            match rest with
            | [] => Except.error "IndexError"
            | p1 :: _ => Except.ok ("IN".toList :: p0 :: splitOnceChar ' ' p1)
    match staged with
    | m :: t :: nm :: rest =>
        let pieces := if containsSub ['='] nm then [m, t] ++ splitOnceChar '=' nm
                      else m :: t :: nm :: rest
        match pieces with
        | m2 :: t2 :: nm2 :: rest2 =>
            let modeS := String.mk (trimChars m2)
            let typeS := String.mk (trimChars t2)
            let nameS := String.mk (trimChars nm2)
            let defS := rest2.head?.map (fun dd => String.mk (trimChars dd))
            match Model.ParamMode.ofLower (pyToLower modeS) with
            | some md =>
                Except.ok (nameS,
                  ({ name := nameS, type := typeS, mode := md, default := defS } : ParamSpec))
            | none => Except.error "ValueError"
        | _ => Except.error "IndexError"
    | _ => Except.error "IndexError")
  Except.ok (Model.buildPyDict rows)

/-- `CodeGeneratorBase._parse_dependency_specification`: the same dependency
grammar as the model layer, over the plain string attribute map. -/
def parseDependencySpecification (g : GenState) (fname : String) :
    Except String (List (String × List String)) := do
  let d ← getFunctionDescriptor g fname
  let pieces :=
    match alookup d.obj "DEPS" with
    | some s => if s ≠ "" then splitChar ',' s.toList else []
    | none => []
  let rows ← pieces.mapM (fun item => do
    let halves := (splitOnceSub "ON".toList (trimChars item)).map trimChars
    match halves with
    | a :: b :: _ =>
        Except.ok (String.mk a,
          (splitOnceChar ' ' b).map (fun dd => String.mk (trimChars dd)))
    | _ => Except.error "IndexError")
  Except.ok (Model.buildPyDict rows)

/-- `get_parameters_for_function`: memoized parameter parsing. -/
def getParametersForFunction (g : GenState) (fname : String) :
    Except String (List (String × ParamSpec) × GenState) :=
  match alookup g.paramCache fname with
  | some r => Except.ok (r, g)
  | none => do
      let r ← parseParameterSpecification g fname
      Except.ok (r, { g with paramCache := (fname, r) :: g.paramCache })

/-- `get_dependencies_for_function`: memoized dependency parsing. -/
def getDependenciesForFunction (g : GenState) (fname : String) :
    Except String (List (String × List String) × GenState) :=
  match alookup g.depsCache fname with
  | some r => Except.ok (r, g)
  | none => do
      let r ← parseDependencySpecification g fname
      Except.ok (r, { g with depsCache := (fname, r) :: g.depsCache })

/-- `CodeGeneratorBase._should_ignore_function`: whether the generator's
name is in the function's `ignored_by` set. -/
def shouldIgnoreInner (g : GenState) (fname : String) : Except String Bool := do
  let d ← getFunctionDescriptor g fname
  Except.ok (decide (g.name ∈ d.ignoredBy))

/-- `CodeGeneratorBase.should_ignore_function`: the memoized wrapper around
`_should_ignore_function`; a cached answer is returned without consulting
the descriptor again. -/
def shouldIgnoreFunction (g : GenState) (fname : String) :
    Except String (Bool × GenState) :=
  match alookup g.ignoreCache fname with
  | some r => Except.ok (r, g)
  | none => do
      let r ← shouldIgnoreInner g fname
      Except.ok (r, { g with ignoreCache := (fname, r) :: g.ignoreCache })

/-- The loop behind `iter_functions` (without `include_ignored`): keep every
catalog name whose `should_ignore_function` check is false, threading the
memoization cache. -/
def iterFunctionsAux (g : GenState) : List String → Except String (List String × GenState)
  | [] => Except.ok ([], g)
  | n :: ns => do
      let (ign, g1) ← shouldIgnoreFunction g n
      let (rest, g2) ← iterFunctionsAux g1 ns
      Except.ok (if ign then rest else n :: rest, g2)

/-- `iter_functions`: the names of the catalog functions this generator
should process, in declaration order. -/
def iterFunctions (g : GenState) : Except String (List String × GenState) :=
  iterFunctionsAux g (akeys g.descriptors)

/-- Replace the `ignored_by` set of one stored descriptor (the mutation
`desc.ignored_by = ...` that the memoization makes invisible). -/
def setIgnoredBy (g : GenState) (fname : String) (s : List String) : GenState :=
  { g with descriptors := g.descriptors.map (fun e =>
      if e.1 = fname then (e.1, { e.2 with ignoredBy := s }) else e) }

/-! ### Block-based generation (`BlockBasedCodeGenerator`) -/

/-- A character the block-name group `[-A-Za-z0-9_]` accepts. -/
def isMarkerNameChar (c : Char) : Bool :=
  c == '-' || c.isAlpha || c.isDigit || c == '_'

/-- The `_BLOCK_REGEXP` match
`^\s*%\s*STIMULUS:?\s*(?P<name>[-A-Za-z0-9_]*)\s*%`: returns the captured
(possibly empty) block name when the line is a marker line.  The regex's
character classes are disjoint, so greedy scanning is exact. -/
def parseMarker (line : String) : Option String :=
  match line.toList.dropWhile isPySpace with
  | '%' :: l1 =>
      let l2 := l1.dropWhile isPySpace
      if l2.take 8 = "STIMULUS".toList then
        let l3 := l2.drop 8
        let l4 := match l3 with
          | ':' :: t => t
          | _ => l3
        let l5 := l4.dropWhile isPySpace
        let nm := l5.takeWhile isMarkerNameChar
        match (l5.drop nm.length).dropWhile isPySpace with
        | '%' :: _ => some (String.mk nm)
        | _ => none
      else none
  | _ => none

/-- The block cache and the record of handler invocations of one
`BlockBasedCodeGenerator` job.  `invoked` lists, in order, the block names
whose handler `_generate_block` actually ran. -/
structure BlockState where
  cache : List (String × String) := []
  invoked : List String := []

/-- `_process_marker_line` (lines 428–446): on a marker line resolve the
block name (`"functions"` when empty), serve it from the cache or run the
handler once and cache its output; a missing handler raises
`StimulusError("Unhandled block in input file: ...")`.  The handler oracle
`handlerOut k nm` stands for whatever the handler would write on its `k`-th
invocation overall, so the theorems can speak about a handler that is not
assumed to be reproducible. -/
def processMarkerLine (hasHandler : String → Bool) (handlerOut : Nat → String → String)
    (st : BlockState) (line : String) : Except String (Option String × BlockState) :=
  match parseMarker line with
  | some nm0 =>
      let nm := if nm0 = "" then "functions" else nm0
      match alookup st.cache nm with
      | some content => Except.ok (some content, st)
      | none =>
          if hasHandler nm then
            let content := handlerOut st.invoked.length nm
            Except.ok (some content,
              { cache := (nm, content) :: st.cache, invoked := st.invoked ++ [nm] })
          else Except.error ("Unhandled block in input file: " ++ nm)
  | none => Except.ok (none, st)

/-- The per-line loop of `BlockBasedCodeGenerator.generate` over the
concatenated input files: a handled marker line contributes the block
content, any other line is forwarded as is. -/
def generateBlocks (hasHandler : String → Bool) (handlerOut : Nat → String → String)
    (st : BlockState) : List String → Except String (List String × BlockState)
  | [] => Except.ok ([], st)
  | line :: rest => do
      let (r, st1) ← processMarkerLine hasHandler handlerOut st line
      let (chunks, st2) ← generateBlocks hasHandler handlerOut st1 rest
      Except.ok (r.getD line :: chunks, st2)

/-- What one output line looks like once the job is over: a marker line
shows the cached content of its block, any other line shows itself. -/
def renderWithCache (cache : List (String × String)) (line : String) : String :=
  match parseMarker line with
  | some nm0 => (alookup cache (if nm0 = "" then "functions" else nm0)).getD line
  | none => line

end Gen

/-! ## R backends (`src/stimulus/generators/r.py`)

`RRCodeGenerator` (the R-side wrapper generator) and
`RCCodeGenerator.chunk_outconv` (the C-side output-conversion chunk).  Both
run over the `generators/base.py` pipeline: plain `ParamSpec`s parsed from
the `PARAMS` string, type descriptors as attribute values, and the
dependency map from `DEPS`.
-/

namespace Gen

/-- Python `value.replace("_", ".")`. -/
def underscoreToDot (s : String) : String :=
  pyReplace s "_" "."

/-- `self.types[tname]`: dictionary access into the type catalog, `KeyError`
when missing. -/
def lookupTypeE (types : List (String × Value)) (tname : String) : Except String Value :=
  match alookup types tname with
  | some v => Except.ok v
  | none => Except.error "KeyError"

/-- Python `key in t` on an attribute value: key membership for a mapping,
substring test for a string, element membership for a list. -/
def vHasKey (t : Value) (key : String) : Except String Bool :=
  match t with
  | Value.vdict entries => Except.ok (decide (key ∈ akeys entries))
  | Value.str s => Except.ok (containsSub key.toList s.toList)
  | Value.vlist l =>
      Except.ok (l.any (fun v => match v with | Value.str s => s = key | _ => false))
  | Value.vbool _ => Except.error "TypeError: argument of type 'bool' is not iterable"

/-- Python `t[key]` where `t` must be a mapping. -/
def vGet (t : Value) (key : String) : Except String Value :=
  match t with
  | Value.vdict entries =>
      match alookup entries key with
      | some v => Except.ok v
      | none => Except.error "KeyError"
  | _ => Except.error "TypeError"

/-- Python `t[key]` where the result is about to be used as a string
(concatenated or `.replace`d): a non-string result is a `TypeError`. -/
def vGetStr (t : Value) (key : String) : Except String String := do
  match ← vGet t key with
  | Value.str s => Except.ok s
  | _ => Except.error "TypeError"

/-- The `%I<n>%` dependency substitution loop (`for i, dep in
enumerate(deps): x = x.replace("%I" + str(i + 1) + "%", dep)`), applied when
the parameter has dependencies. -/
def applyDepSubstI (deps : List (String × List String)) (pname : String) (s : String) :
    String :=
  match alookup deps pname with
  | some ds => ds.enum.foldl (fun acc e =>
      pyReplace acc ("%I" ++ toString (e.1 + 1) ++ "%") e.2) s
  | none => s

/-- The `%C<n>%` dependency substitution loop used by the C-side chunks
(`x = x.replace("%C" + str(i + 1) + "%", "c_" + dep)`). -/
def applyDepSubstC (deps : List (String × List String)) (pname : String) (s : String) :
    String :=
  match alookup deps pname with
  | some ds => ds.enum.foldl (fun acc e =>
      pyReplace acc ("%C" ++ toString (e.1 + 1) ++ "%") ("c_" ++ e.2)) s
  | none => s

/-- Recognize the tail of a `%I[0-9]+%` occurrence after its `%`: the `I`,
at least one digit, and the closing `%`; returns how many characters the
match consumes. -/
def matchNumberedI : List Char → Option Nat
  | 'I' :: t =>
      let ds := t.takeWhile Char.isDigit
      if ds.isEmpty then none
      else
        match t.drop ds.length with
        | '%' :: _ => some (ds.length + 2)
        | _ => none
  | _ => none

/-- `re.sub("%I[0-9]+%", "", s)` on a character list, with a step budget
(each step consumes at least one character, so `l.length + 1` steps always
suffice): drop every non-overlapping leftmost occurrence of a numbered
`%I<n>%` placeholder. -/
def removeNumberedIChars : Nat → List Char → List Char
  | 0, l => l
  | _ + 1, [] => []
  | fuel + 1, c :: rest =>
      if c = '%' then
        match matchNumberedI rest with
        | some n => removeNumberedIChars fuel (rest.drop n)
        | none => c :: removeNumberedIChars fuel rest
      else c :: removeNumberedIChars fuel rest

/-- `re.sub("%I[0-9]+%", "", s)` on a string. -/
def removeNumberedI (s : String) : String :=
  String.mk (removeNumberedIChars (s.toList.length + 1) s.toList)

/-- The literal message of the `StimulusError` raised by
`RRCodeGenerator.generate_function` on an unknown parameter type.  The
source string is not an f-string, so the placeholder text appears verbatim
in the message. -/
def rrUnknownTypeMsg : String :=
  "Unknown type encountered: \x7btname!r\x7d"

/-- The type-checking loop at the top of `RRCodeGenerator.generate_function`
(lines 23–27 of `generators/r.py`): raise `StimulusError` as soon as some
parameter's abstract type is not a key of the type catalog. -/
def rrCheckTypes (typeNames : List String) :
    List (String × ParamSpec) → Except String Unit
  | [] => Except.ok ()
  | (_, p) :: rest =>
      if p.type ∈ typeNames then rrCheckTypes typeNames rest
      else Except.error rrUnknownTypeMsg

/-- `handle_input_argument` from `RRCodeGenerator.generate_function`: build
one argument of the generated R function header, taking the `HEADER`
template of the type when present, appending the translated default value,
and substituting `%I%` and the numbered dependency placeholders. -/
def rrInputArg (types : List (String × Value)) (deps : List (String × List String))
    (pname : String) (p : ParamSpec) : Except String String := do
  let t ← lookupTypeE types p.type
  let hasHeader ← vHasKey t "HEADER"
  let hv ← if hasHeader then vGet t "HEADER"
           else Except.ok (Value.str (underscoreToDot pname))
  let header ←
    match hv with
    | Value.str s =>
        if s ≠ "" then Except.ok (pyReplace s "%I%" (underscoreToDot pname))
        else Except.ok ""
    | v => if v.isTruthy then Except.error "AttributeError" else Except.ok ""
  let defStr ←
    match p.default with
    | some d => do
        let hasDef ← vHasKey t "DEFAULT"
        if hasDef then do
          let dv ← vGet t "DEFAULT"
          let inDef ← vHasKey dv d
          if inDef then do
            let s ← vGetStr dv d
            Except.ok ("=" ++ s)
          else Except.ok ("=" ++ d)
        else Except.ok ("=" ++ d)
    | none => Except.ok ""
  Except.ok (applyDepSubstI deps pname (header ++ defStr))

/-- `handle_argument_check` from `RRCodeGenerator.generate_function`: the
`INCONV` template for an input parameter, selected by mode when the
template set is keyed by mode, with the usual substitutions. -/
def rrArgCheck (types : List (String × Value)) (deps : List (String × List String))
    (pname : String) (p : ParamSpec) : Except String String := do
  let t ← lookupTypeE types p.type
  let mode := p.mode.modeStr
  let res ←
    if p.mode.isInput then do
      let hasInc ← vHasKey t "INCONV"
      if hasInc then do
        let iv ← vGet t "INCONV"
        let inMode ← vHasKey iv mode
        if inMode then do
          let s ← vGetStr iv mode
          Except.ok ("  " ++ s)
        else
          match iv with
          | Value.str s2 => Except.ok ("  " ++ s2)
          | _ => Except.error "TypeError"
      else Except.ok ""
    else Except.ok ""
  let res2 := pyReplace res "%I%" (underscoreToDot pname)
  Except.ok (applyDepSubstI deps pname res2)

/-- The `.Call` argument builder in `RRCodeGenerator.generate_function`
(lines 141–149): each input parameter contributes its `CALL` template (or
its dotted name), and an empty template drops the argument entirely. -/
def rrCallPart (types : List (String × Value)) (pname : String) (p : ParamSpec) :
    Except String (Option String) := do
  let t ← lookupTypeE types p.type
  let nm := underscoreToDot pname
  let callv ←
    match t with
    | Value.vdict entries => Except.ok ((alookup entries "CALL").getD (Value.str nm))
    | _ => Except.error "AttributeError"
  match callv with
  | Value.str c =>
      if c ≠ "" then Except.ok (some (pyReplace c "%I%" nm)) else Except.ok none
  | v => if v.isTruthy then Except.error "AttributeError" else Except.ok none

/-- `handle_output_argument` from `RRCodeGenerator.generate_function`: the
`OUTCONV` template selected by mode, substituted against the prefixed real
name, with leftover numbered placeholders removed by the final
`re.sub("%I[0-9]+%", "", ...)`. -/
def rrOutputArg (types : List (String × Value)) (deps : List (String × List String))
    (pname : String) (p : ParamSpec) (realname : Option String) (ipfx : String) :
    Except String String := do
  let rn := realname.getD pname
  let t ← lookupTypeE types p.type
  let mode := p.mode.modeStr
  let outc ← do
    let hasOut ← vHasKey t "OUTCONV"
    if hasOut then do
      let ov ← vGet t "OUTCONV"
      let inMode ← vHasKey ov mode
      if inMode then do
        let s ← vGetStr ov mode
        Except.ok ("  " ++ s)
      else Except.ok ""
    else Except.ok ""
  let o1 := pyReplace outc "%I%" (ipfx ++ rn)
  let o2 := applyDepSubstI deps pname o1
  Except.ok (removeNumberedI o2)

/-- The `GATTR-R` block (lines 204–211): one `set.graph.attribute` line per
comma-separated `name IS value` entry; a missing `" IS "` separator makes
the `ga[1]` access raise `IndexError`. -/
def rrGattr (spec : FunctionDescriptor) : Except String String :=
  match alookup spec.obj "GATTR-R" with
  | some s => do
      let lines ← (splitChar ',' s.toList).mapM (fun ga => do
        match splitOnceSub " IS ".toList ga with
        | a :: b :: _ =>
            Except.ok ("  res <- set.graph.attribute(res, '"
              ++ String.mk (trimChars a) ++ "', '"
              ++ (pyReplace (String.mk (trimChars b)) "'" "\\'") ++ "')\n")
        | _ => Except.error "IndexError")
      Except.ok (String.join lines)
  | none => Except.ok ""

/-- The `GATTR-PARAM-R` block (lines 214–219). -/
def rrGattrParam (spec : FunctionDescriptor) : String :=
  match alookup spec.obj "GATTR-PARAM-R" with
  | some s =>
      String.join ((splitChar ',' s.toList).map (fun p =>
        let pp := underscoreToDot (String.mk (trimChars p))
        "  res <- set.graph.attribute(res, '" ++ pp ++ "', " ++ pp ++ ")\n"))
  | none => ""

/-- `RRCodeGenerator.generate_function` (`generators/r.py`, lines 16–231):
produce the whole R wrapper text for one function, or raise.  The
`StimulusError` for an unknown parameter type is raised before any output
is produced and — crucially — is *not* caught anywhere in this generator or
in the `SingleBlockCodeGenerator` driver above it. -/
def rrGenerateFunction (g : GenState) (function : String) :
    Except String (String × GenState) := do
  let spec ← getFunctionDescriptor g function
  let name := (alookup spec.obj "NAME-R").getD (underscoreToDot (String.mk (function.toList.drop 1)))
  let pr ← getParametersForFunction g function
  let params := pr.1
  let dr ← getDependenciesForFunction pr.2 function
  let deps := dr.1
  let g2 := dr.2
  let _ ← rrCheckTypes (akeys g2.types) params
  let internal := alookup spec.obj "INTERNAL"
  let exportLine :=
    if internal = none ∨ internal = some "False" then "#' @export\n" else ""
  let headParts ← (params.filter (fun e => e.2.mode.isInput)).mapM
    (fun e => rrInputArg g2.types deps e.1 e.2)
  let head := headParts.filter (fun h => h ≠ "")
  let inconvParts ← params.mapM (fun e => rrArgCheck g2.types deps e.1 e.2)
  let inconv := inconvParts.filter (fun i => i ≠ "")
  let callParts ← (params.filter (fun e => e.2.mode.isInput)).mapM
    (fun e => rrCallPart g2.types e.1 e.2)
  let calls := callParts.filterMap id
  let retpars := (params.filter (fun e => e.2.mode.isOutput)).map Prod.fst
  let outconvParts ←
    if retpars.length ≤ 1 then
      params.mapM (fun e => rrOutputArg g2.types deps e.1 e.2 (some "res") "")
    else
      params.mapM (fun e => rrOutputArg g2.types deps e.1 e.2 none "res$")
  let outconv := outconvParts.filter (fun o => o ≠ "")
  let ret ←
    if retpars.length = 0 then do
      let rt ← lookupTypeE g2.types spec.returnType
      let retconv ← do
        let hasOut ← vHasKey rt "OUTCONV"
        if hasOut then do
          let ov ← vGet rt "OUTCONV"
          let s ← vGetStr ov "OUT"
          Except.ok ("  " ++ s)
        else Except.ok ""
      Except.ok (String.intercalate "\n" outconv ++ "\n"
        ++ pyReplace retconv "%I%" "res" ++ "\n")
    else Except.ok (String.intercalate "\n" outconv ++ "\n")
  let gattr ← rrGattr spec
  let classR :=
    match alookup spec.obj "CLASS-R" with
    | some c => "  class(res) <- \"" ++ c ++ "\"\n"
    | none => ""
  let ppR :=
    match alookup spec.obj "PP-R" with
    | some p => "  res <- " ++ p ++ "(res)\n"
    | none => ""
  let text :=
    exportLine ++ name ++ " <- function(" ++ String.intercalate ", " head ++ ") \x7b\n"
      ++ "  # Argument checks\n" ++ String.intercalate "\n" inconv ++ "\n\n"
      ++ "  on.exit( .Call(C_R_igraph_finalizer) )\n"
      ++ "  # Function call\n"
      ++ "  res <- .Call(C_R_" ++ function ++ ", " ++ String.intercalate ", " calls
      ++ ")\n" ++ ret ++ gattr ++ rrGattrParam spec ++ classR ++ ppR
      ++ "  res\n\x7d\n\n"
  Except.ok (text, g2)

/-- `generate_functions_block` as driven for `RRCodeGenerator` by
`SingleBlockCodeGenerator.generate`: iterate the catalog in declaration
order, skip ignored functions, and concatenate each `generate_function`
output.  Any error a `generate_function` call raises propagates and aborts
the whole block. -/
def rrFunctionsBlockAux (g : GenState) : List String → Except String (String × GenState)
  | [] => Except.ok ("", g)
  | n :: ns => do
      let (ign, g1) ← shouldIgnoreFunction g n
      if ign then rrFunctionsBlockAux g1 ns
      else do
        let (txt, g2) ← rrGenerateFunction g1 n
        let (restTxt, g3) ← rrFunctionsBlockAux g2 ns
        Except.ok (txt ++ restTxt, g3)

/-- The functions block of one `RRCodeGenerator` job. -/
def rrFunctionsBlock (g : GenState) : Except String (String × GenState) :=
  rrFunctionsBlockAux g (akeys g.descriptors)

/-! ### `RCCodeGenerator.chunk_outconv` (lines 412–501 of
`generators/r.py`): the output-aggregation policy of the C side. -/

/-- `retpars`: the names of the `OUT`/`INOUT` parameters, in the order the
parameter map lists them (the declaration order of `PARAMS`). -/
def retparsOf (params : List (String × ParamSpec)) : List String :=
  (params.filter (fun e => e.2.mode.isOutput)).map Prod.fst

/-- The `SET_VECTOR_ELT` lines of the multi-output aggregate. -/
def setVectorLines (retpars : List String) : List String :=
  retpars.enum.map (fun e =>
    "  SET_VECTOR_ELT(result, " ++ toString e.1 ++ ", " ++ e.2 ++ ");")

/-- The `SET_STRING_ELT` lines naming the entries of the multi-output
aggregate: entry `i` is keyed by the declared name `retpars[i]`. -/
def setStringLines (retpars : List String) : List String :=
  retpars.enum.map (fun e =>
    "  SET_STRING_ELT(names, " ++ toString e.1 ++ ", CREATE_STRING_VECTOR(\""
      ++ e.2 ++ "\"));")

/-- `do_par` inside `chunk_outconv`: the `OUTCONV` template of the
parameter's type in the parameter's mode (nothing when absent), with
numbered `%C<n>%` dependency substitution and the `%C%`/`%I%`
substitutions. -/
def rcOutconvPar (types : List (String × Value)) (deps : List (String × List String))
    (pname : String) (p : ParamSpec) : Except String String := do
  let cname := "c_" ++ pname
  let t ← lookupTypeE types p.type
  let mode := p.mode.modeStr
  let outc ← do
    let hasOut ← vHasKey t "OUTCONV"
    if hasOut then do
      let ov ← vGet t "OUTCONV"
      let inMode ← vHasKey ov mode
      if inMode then do
        let s ← vGetStr ov mode
        Except.ok ("  " ++ s)
      else Except.ok ""
    else Except.ok ""
  let o1 := applyDepSubstC deps pname outc
  Except.ok (pyReplace (pyReplace o1 "%C%" cname) "%I%" pname)

/-- `RCCodeGenerator.chunk_outconv`: collect the per-parameter output
conversions, then decide the aggregation policy by the number of
`OUT`/`INOUT` parameters: zero — convert the C return value through the
return type's `OUT` template into `result`; one — assign that parameter to
`result`; more — pack the converted values into a named list keyed by the
declared parameter names in declaration order. -/
def chunkOutconv (types : List (String × Value)) (deps : List (String × List String))
    (returnType : String) (params : List (String × ParamSpec)) :
    Except String String := do
  let ocs ← params.mapM (fun e => rcOutconvPar types deps e.1 e.2)
  let outconv := ocs.filter (fun o => o ≠ "")
  let retpars := retparsOf params
  if retpars.length = 0 then do
    let rt ← lookupTypeE types returnType
    let retconv ← do
      let hasOC ← vHasKey rt "OUTCONV"
      if hasOC then do
        let ov ← vGet rt "OUTCONV"
        let s ← vGetStr ov "OUT"
        Except.ok ("  " ++ s)
      else Except.ok ""
    Except.ok (String.intercalate "\n" outconv ++ "\n"
      ++ pyReplace (pyReplace retconv "%C%" "c_result") "%I%" "result")
  else if retpars.length = 1 then
    Except.ok (String.intercalate "\n" outconv ++ "\n"
      ++ "  result=" ++ retpars.headD "" ++ ";")
  else
    Except.ok (String.intercalate "\n"
      (["  PROTECT(result=NEW_LIST(" ++ toString retpars.length ++ "));",
        "  PROTECT(names=NEW_CHARACTER(" ++ toString retpars.length ++ "));"]
        ++ outconv ++ setVectorLines retpars ++ setStringLines retpars
        ++ ["  SET_NAMES(result, names);"]
        ++ ["  UNPROTECT(" ++ toString ((setVectorLines retpars).length + 1) ++ ");"]))

end Gen

/-! # Theorems

Helper lemmas first, then one theorem per claim (with its witness or
counterexample).
-/

/-- The well-formedness invariant of the lexer's indentation stack: the base
level `0` sits at the bottom and the levels strictly increase towards the
top (the head of the list). -/
def StackInv (stack : List Nat) : Prop :=
  stack.getLast? = some 0 ∧ List.Pairwise (fun a b => b < a) stack

theorem stackInv_base : StackInv [0] := by
  constructor <;> simp [StackInv]

theorem stackInv_ne_nil {stack : List Nat} (h : StackInv stack) : stack ≠ [] := by
  intro hn
  rw [hn] at h
  simp [StackInv] at h

theorem popToLevel_snd_eq_drop (lvl : Nat) (stack : List Nat) :
    (popToLevel lvl stack).2 = stack.drop (popToLevel lvl stack).1 := by
  induction stack with
  | nil => simp [popToLevel]
  | cons t s ih =>
      unfold popToLevel
      by_cases h : lvl < t
      · simp [h]
        exact ih
      · simp [h]

theorem popToLevel_fst_le (lvl : Nat) (stack : List Nat) :
    (popToLevel lvl stack).1 ≤ stack.length := by
  induction stack with
  | nil => simp [popToLevel]
  | cons t s ih =>
      unfold popToLevel
      by_cases h : lvl < t
      · simp [h]
        omega
      · simp [h]

theorem popToLevel_getLast (lvl : Nat) {stack : List Nat}
    (h : stack.getLast? = some 0) :
    (popToLevel lvl stack).2.getLast? = some 0 := by
  induction stack with
  | nil => simp at h
  | cons t s ih =>
      unfold popToLevel
      by_cases hc : lvl < t
      · simp [hc]
        cases s with
        | nil =>
            exfalso
            simp at h
            omega
        | cons a s2 =>
            apply ih
            exact h
      · simp [hc]
        exact h

theorem popToLevel_ne_nil (lvl : Nat) {stack : List Nat}
    (h : stack.getLast? = some 0) : (popToLevel lvl stack).2 ≠ [] := by
  intro hn
  have := popToLevel_getLast lvl h
  rw [hn] at this
  simp at this

theorem popToLevel_head_of_mem (lvl : Nat) {stack : List Nat}
    (hp : List.Pairwise (fun a b => b < a) stack) (hm : lvl ∈ stack) :
    (popToLevel lvl stack).2.head? = some lvl := by
  induction stack with
  | nil => simp at hm
  | cons t s ih =>
      unfold popToLevel
      by_cases hc : lvl < t
      · simp [hc]
        apply ih (List.Pairwise.of_cons hp)
        rcases List.mem_cons.mp hm with h1 | h2
        · omega
        · exact h2
      · simp [hc]
        rcases List.mem_cons.mp hm with h1 | h2
        · omega
        · exfalso
          have := (List.pairwise_cons.mp hp).1 lvl h2
          omega

theorem popToLevel_mem_of_head (lvl : Nat) {stack : List Nat}
    (hh : (popToLevel lvl stack).2.head? = some lvl) : lvl ∈ stack := by
  have hd := popToLevel_snd_eq_drop lvl stack
  have hsub : (popToLevel lvl stack).2.Sublist stack := by
    rw [hd]
    exact List.drop_sublist _ _
  have : lvl ∈ (popToLevel lvl stack).2 := by
    match hm : (popToLevel lvl stack).2 with
    | [] => rw [hm] at hh; simp at hh
    | a :: r =>
        rw [hm] at hh
        simp at hh
        simp [hh]
  exact hsub.mem this

theorem popToLevel_length (lvl : Nat) (stack : List Nat) :
    (popToLevel lvl stack).2.length = stack.length - (popToLevel lvl stack).1 := by
  rw [popToLevel_snd_eq_drop]
  simp

/-- The step-level characterization behind claim C4: on a well-formed stack,
the indentation bookkeeping fails exactly when the line's level is shallower
than the top of the stack and matches no stacked level. -/
theorem indentStep_none_iff {stack : List Nat} (lvl : Nat) (h : StackInv stack) :
    indentStep stack lvl = none ↔ (lvl < stack.headD 0 ∧ lvl ∉ stack) := by
  obtain ⟨hlast, hpair⟩ := h
  unfold indentStep
  simp only [List.headD_eq_head?_getD]
  by_cases hc : stack.head?.getD 0 < lvl
  · simp [hc]
    omega
  · simp [hc]
    have hne := popToLevel_ne_nil lvl hlast
    by_cases hm : lvl ∈ stack
    · have hh := popToLevel_head_of_mem lvl hpair hm
      have hdd : (popToLevel lvl stack).2.head?.getD 0 = lvl := by
        rw [hh]
        rfl
      simp [hdd, hm]
    · constructor
      · intro hno
        refine ⟨?_, hm⟩
        have hhead : stack.head?.getD 0 ∈ stack := by
          cases stack with
          | nil => simp at hlast
          | cons a r => simp
        have : lvl ≠ stack.head?.getD 0 := by
          intro he
          rw [he] at hm
          exact hm hhead
        omega
      · intro _
        intro heq
        apply hm
        apply popToLevel_mem_of_head lvl
        match hx : (popToLevel lvl stack).2 with
        | [] => exact absurd hx hne
        | a :: r =>
            rw [hx] at heq
            simp at heq
            simp [heq]

theorem joinContinuations_rest_length (line : String) (ls : List String) :
    (joinContinuations line ls).2.2.length ≤ ls.length := by
  induction ls generalizing line with
  | nil =>
      unfold joinContinuations
      split <;> simp
  | cons a t ih =>
      unfold joinContinuations
      split
      · exact Nat.le_trans (ih _) (Nat.le_succ _)
      · simp

theorem parseStackRun_append (n : Nat) (xs ys : List Token) :
    parseStackRun n (xs ++ ys) = (parseStackRun n xs).bind (fun m => parseStackRun m ys) := by
  induction xs generalizing n with
  | nil => simp [parseStackRun]
  | cons t rest ih =>
      cases t with
      | indent => simp [parseStackRun, ih]
      | dedent =>
          by_cases h : 2 ≤ n <;> simp [parseStackRun, h, ih]
      | key v =>
          by_cases h : 2 ≤ n <;> simp [parseStackRun, h, ih]
      | text v =>
          by_cases h : 1 ≤ n <;> simp [parseStackRun, h, ih]

theorem parseStackRun_counts {n m : Nat} {ts : List Token}
    (h : parseStackRun n ts = some m) :
    m + ts.count Token.dedent = n + ts.count Token.indent := by
  induction ts generalizing n with
  | nil =>
      simp [parseStackRun] at h
      simp [h]
  | cons t rest ih =>
      cases t with
      | indent =>
          unfold parseStackRun at h
          have := ih h
          simp [List.count_cons]
          omega
      | dedent =>
          unfold parseStackRun at h
          by_cases h2 : 2 ≤ n
          · rw [if_pos h2] at h
            have := ih h
            simp [List.count_cons]
            omega
          · rw [if_neg h2] at h
            exact absurd h (by simp)
      | key v =>
          unfold parseStackRun at h
          by_cases h2 : 2 ≤ n
          · rw [if_pos h2] at h
            have := ih h
            simp [List.count_cons]
            omega
          · rw [if_neg h2] at h
            exact absurd h (by simp)
      | text v =>
          unfold parseStackRun at h
          by_cases h2 : 1 ≤ n
          · rw [if_pos h2] at h
            have := ih h
            simp [List.count_cons]
            omega
          · rw [if_neg h2] at h
            exact absurd h (by simp)

theorem parseStackRun_replicate (k m : Nat) (hm : 1 ≤ m) :
    parseStackRun (m + k) (List.replicate k Token.dedent) = some m := by
  induction k with
  | zero => simp [parseStackRun]
  | succ k ih =>
      rw [List.replicate_succ]
      unfold parseStackRun
      rw [if_pos (by omega)]
      have he : m + (k + 1) - 1 = m + k := by omega
      rw [he]
      exact ih

theorem getLast_replicate_dedent (k : Nat) (hk : 1 ≤ k) :
    (List.replicate k Token.dedent).getLast? = some Token.dedent := by
  induction k with
  | zero => omega
  | succ k ih =>
      cases k with
      | zero => simp
      | succ k2 =>
          rw [List.replicate_succ, List.replicate_succ]
          show (Token.dedent :: List.replicate k2 Token.dedent).getLast? = some Token.dedent
          rw [← List.replicate_succ]
          exact ih (by omega)

theorem parseStackRun_keys {α : Type} (keys : List α) (f : α → String) (n : Nat)
    (h : 2 ≤ n) :
    parseStackRun n (keys.map (fun x => Token.key (f x))) = some n := by
  induction keys with
  | nil => simp [parseStackRun]
  | cons k rest ih => simp [parseStackRun, h, ih]

theorem parseStackRun_blocks {α : Type} (keys : List α) (f : α → String) (v : String)
    (n : Nat) (h : 2 ≤ n) :
    parseStackRun n (keys.flatMap
      (fun x => [Token.key (f x), Token.indent, Token.text v, Token.dedent])) = some n := by
  induction keys with
  | nil => simp [parseStackRun]
  | cons k rest ih =>
      rw [List.flatMap_cons, parseStackRun_append]
      have hblock : parseStackRun n
          [Token.key (f k), Token.indent, Token.text v, Token.dedent] = some n := by
        have h1 : (1:Nat) ≤ n + 1 := by omega
        have h2 : (2:Nat) ≤ n + 1 := by omega
        simp [parseStackRun, h, h1, h2]
      rw [hblock]
      simpa using ih

theorem lineTokens_error {line : String} {ln : Nat} {e : PError}
    (h : lineTokens line ln = Except.error e) : e = ⟨"Missing keyword", ln⟩ := by
  unfold lineTokens at h
  match hs : splitOnceChar ':' line.toList with
  | [] => rw [hs] at h; simp at h
  | [x] => rw [hs] at h; simp at h
  | before :: after :: rest =>
      rw [hs] at h
      by_cases hk : pyStrip (String.mk before) = ""
      · simp [hk] at h
        simp [h]
      · by_cases hv : pyStrip (String.mk after) = "" <;> simp [hk, hv] at h

theorem parseStackRun_lineTokens {line : String} {ln : Nat} {lt : List Token}
    (h : lineTokens line ln = Except.ok lt) (n : Nat) (hn : 2 ≤ n) :
    parseStackRun n lt = some n := by
  unfold lineTokens at h
  match hs : splitOnceChar ':' line.toList with
  | [] =>
      rw [hs] at h
      simp at h
      simp [← h, parseStackRun]
      omega
  | [x] =>
      rw [hs] at h
      simp at h
      simp [← h, parseStackRun]
      omega
  | before :: after :: rest =>
      rw [hs] at h
      by_cases hk : pyStrip (String.mk before) = ""
      · simp [hk] at h
      · by_cases hv : pyStrip (String.mk after) = ""
        · simp [hk, hv] at h
          rw [← h]
          exact parseStackRun_keys _ _ n hn
        · simp [hk, hv] at h
          rw [← h]
          exact parseStackRun_blocks _ _ _ n hn

theorem indentStep_some {stack : List Nat} {lvl : Nat} {sr : List Nat × List Token}
    (hinv : StackInv stack) (h : indentStep stack lvl = some sr) :
    StackInv sr.1 ∧ parseStackRun (stack.length + 1) sr.2 = some (sr.1.length + 1) := by
  obtain ⟨hlast, hpair⟩ := hinv
  unfold indentStep at h
  by_cases hc : stack.headD 0 < lvl
  · rw [if_pos hc] at h
    simp at h
    rw [← h]
    refine ⟨⟨?_, ?_⟩, ?_⟩
    · cases stack with
      | nil => simp at hlast
      | cons a t => exact hlast
    · rw [List.pairwise_cons]
      refine ⟨?_, hpair⟩
      intro x hx
      cases stack with
      | nil => simp at hx
      | cons h0 t =>
          simp only [List.headD_cons] at hc
          rcases List.mem_cons.mp hx with h1 | h2
          · omega
          · have := (List.pairwise_cons.mp hpair).1 x h2
            omega
    · simp [parseStackRun]
  · rw [if_neg hc] at h
    by_cases he : lvl = (popToLevel lvl stack).2.headD 0
    · rw [if_pos he] at h
      simp at h
      rw [← h]
      have hlast2 := popToLevel_getLast lvl hlast
      have hsub : (popToLevel lvl stack).2.Sublist stack := by
        rw [popToLevel_snd_eq_drop]
        exact List.drop_sublist _ _
      refine ⟨⟨hlast2, hpair.sublist hsub⟩, ?_⟩
      have hlen := popToLevel_length lvl stack
      have hle := popToLevel_fst_le lvl stack
      have hne2 := popToLevel_ne_nil lvl hlast
      have hpos : 1 ≤ (popToLevel lvl stack).2.length := by
        cases hx : (popToLevel lvl stack).2 with
        | nil => exact absurd hx hne2
        | cons a r => simp
      have heq : stack.length + 1 = ((popToLevel lvl stack).2.length + 1) + (popToLevel lvl stack).1 := by
        omega
      rw [heq]
      exact parseStackRun_replicate _ _ (by omega)
    · rw [if_neg he] at h
      simp at h

theorem tokenizeLoop_error_lineno :
    ∀ (fuel : Nat) (stack : List Nat) (lineno : Nat) (lines : List String) (e : PError),
      lines.length < fuel → tokenizeLoop fuel stack lineno lines = Except.error e →
      lineno < e.lineno := by
  intro fuel
  induction fuel with
  | zero => intro stack lineno lines e hf; omega
  | succ fuel ih =>
      intro stack lineno lines e hf h
      match lines with
      | [] => simp [tokenizeLoop] at h
      | line :: rest =>
          unfold tokenizeLoop at h
          by_cases hb : (isBlankLine line || isCommentLine line) = true
          · rw [if_pos hb] at h
            have := ih stack (lineno + 1) rest e (by simp at hf; omega) h
            omega
          · rw [if_neg hb] at h
            match hstep : indentStep stack (indentWidth line) with
            | none =>
                rw [hstep] at h
                simp at h
                rw [← h]
                simp
            | some sr =>
                rw [hstep] at h
                simp only [] at h
                match hlt : lineTokens (joinContinuations (pyStrip line) rest).1
                    (lineno + 1 + (joinContinuations (pyStrip line) rest).2.1) with
                | Except.error e2 =>
                    rw [hlt] at h
                    simp at h
                    have := lineTokens_error hlt
                    rw [← h, this]
                    simp
                    omega
                | Except.ok ltoks =>
                    rw [hlt] at h
                    simp only [] at h
                    match hrec : tokenizeLoop fuel sr.1
                        (lineno + 1 + (joinContinuations (pyStrip line) rest).2.1)
                        (joinContinuations (pyStrip line) rest).2.2 with
                    | Except.error e3 =>
                        rw [hrec] at h
                        simp at h
                        have hlen := joinContinuations_rest_length (pyStrip line) rest
                        have := ih sr.1 _ _ e3 (by simp at hf; omega) hrec
                        rw [← h]
                        omega
                    | Except.ok ts2 =>
                        rw [hrec] at h
                        simp at h

theorem tokenizeLoop_ok :
    ∀ (fuel : Nat) (stack : List Nat) (lineno : Nat) (lines : List String) (ts : List Token),
      lines.length < fuel → StackInv stack →
      tokenizeLoop fuel stack lineno lines = Except.ok ts →
      parseStackRun (stack.length + 1) ts = some 1 ∧ ts.getLast? = some Token.dedent := by
  intro fuel
  induction fuel with
  | zero => intro stack lineno lines ts hf; omega
  | succ fuel ih =>
      intro stack lineno lines ts hf hinv h
      match lines with
      | [] =>
          simp [tokenizeLoop] at h
          have hne : stack ≠ [] := stackInv_ne_nil hinv
          have hpos : 1 ≤ stack.length := by
            cases hs : stack with
            | nil => exact absurd hs hne
            | cons a t => simp
          constructor
          · rw [← h]
            have heq : stack.length + 1 = 1 + stack.length := by omega
            rw [heq]
            exact parseStackRun_replicate _ _ (by omega)
          · rw [← h]
            exact getLast_replicate_dedent _ hpos
      | line :: rest =>
          unfold tokenizeLoop at h
          by_cases hb : (isBlankLine line || isCommentLine line) = true
          · rw [if_pos hb] at h
            exact ih stack (lineno + 1) rest ts (by simp at hf; omega) hinv h
          · rw [if_neg hb] at h
            match hstep : indentStep stack (indentWidth line) with
            | none => rw [hstep] at h; simp at h
            | some sr =>
                rw [hstep] at h
                simp only [] at h
                match hlt : lineTokens (joinContinuations (pyStrip line) rest).1
                    (lineno + 1 + (joinContinuations (pyStrip line) rest).2.1) with
                | Except.error e2 => rw [hlt] at h; simp at h
                | Except.ok ltoks =>
                    rw [hlt] at h
                    simp only [] at h
                    match hrec : tokenizeLoop fuel sr.1
                        (lineno + 1 + (joinContinuations (pyStrip line) rest).2.1)
                        (joinContinuations (pyStrip line) rest).2.2 with
                    | Except.error e3 => rw [hrec] at h; simp at h
                    | Except.ok ts2 =>
                        rw [hrec] at h
                        simp at h
                        have hlen := joinContinuations_rest_length (pyStrip line) rest
                        have hist := indentStep_some hinv hstep
                        have hsub := ih sr.1 _ _ ts2 (by simp at hf; omega) hist.1 hrec
                        obtain ⟨hrun2, hlast2⟩ := hsub
                        have hne2 : sr.1 ≠ [] := stackInv_ne_nil hist.1
                        have hpos2 : 1 ≤ sr.1.length := by
                          cases hs : sr.1 with
                          | nil => exact absurd hs hne2
                          | cons a t => simp
                        constructor
                        · rw [← h, parseStackRun_append, hist.2]
                          show parseStackRun (sr.1.length + 1) (ltoks ++ ts2) = some 1
                          rw [parseStackRun_append,
                              parseStackRun_lineTokens hlt _ (by omega)]
                          simpa using hrun2
                        · rw [← h]
                          have hts2 : ts2 ≠ [] := by
                            intro hn
                            rw [hn] at hlast2
                            simp at hlast2
                          rw [List.getLast?_append_of_ne_nil _ (by simp [hts2]),
                              List.getLast?_append_of_ne_nil _ hts2]
                          exact hlast2

/-- C4: on any input stream (any reachable scanner state: a well-formed
indentation stack and any remaining lines with enough step budget), the
scanner fails with the malformed-indentation error at the next line exactly
when that line is non-blank, non-comment, its leading-whitespace width is
smaller than the top of the indentation stack, and — after popping deeper
levels — it does not equal any previously pushed indentation level; a line
whose indentation matches a prior level never produces this error. -/
theorem claim_C4_malformed_indentation_iff (fuel lineno : Nat) (stack : List Nat)
    (line : String) (rest : List String)
    (hfuel : (line :: rest).length < fuel) (hinv : StackInv stack) :
    tokenizeLoop fuel stack lineno (line :: rest) =
        Except.error ⟨"Bad indentation", lineno + 1⟩
      ↔ (isBlankLine line = false ∧ isCommentLine line = false ∧
          indentWidth line < stack.headD 0 ∧ indentWidth line ∉ stack) := by
  cases fuel with
  | zero => omega
  | succ f =>
      constructor
      · intro h
        unfold tokenizeLoop at h
        by_cases hb : (isBlankLine line || isCommentLine line) = true
        · rw [if_pos hb] at h
          have := tokenizeLoop_error_lineno f stack (lineno + 1) rest _
            (by simp at hfuel; omega) h
          simp at this
        · rw [if_neg hb] at h
          simp only [Bool.or_eq_true, not_or, Bool.not_eq_true] at hb
          match hstep : indentStep stack (indentWidth line) with
          | none =>
              have := (indentStep_none_iff _ hinv).mp hstep
              exact ⟨hb.1, hb.2, this.1, this.2⟩
          | some sr =>
              rw [hstep] at h
              simp only [] at h
              match hlt : lineTokens (joinContinuations (pyStrip line) rest).1
                  (lineno + 1 + (joinContinuations (pyStrip line) rest).2.1) with
              | Except.error e2 =>
                  rw [hlt] at h
                  simp at h
                  have := lineTokens_error hlt
                  rw [this] at h
                  simp at h
              | Except.ok ltoks =>
                  rw [hlt] at h
                  simp only [] at h
                  match hrec : tokenizeLoop f sr.1
                      (lineno + 1 + (joinContinuations (pyStrip line) rest).2.1)
                      (joinContinuations (pyStrip line) rest).2.2 with
                  | Except.error e3 =>
                      rw [hrec] at h
                      simp at h
                      have hlen := joinContinuations_rest_length (pyStrip line) rest
                      have := tokenizeLoop_error_lineno f sr.1 _ _ e3
                        (by simp at hfuel; omega) hrec
                      rw [h] at this
                      simp at this
                  | Except.ok ts2 =>
                      rw [hrec] at h
                      simp at h
      · intro hr
        obtain ⟨h1, h2, h3, h4⟩ := hr
        unfold tokenizeLoop
        rw [if_neg (by simp [h1, h2])]
        rw [(indentStep_none_iff _ hinv).mpr ⟨h3, h4⟩]

/-- Witness for C4: on the stack `[4, 0]` (base level plus a pushed level
`4`), the line `"  x"` has width `2 < 4` matching no stacked level, and the
scanner indeed reports `Bad indentation` at line 1. -/
theorem claim_C4_malformed_indentation_iff_witness :
    tokenizeLoop 3 [4, 0] 0 ["  x"] = Except.error ⟨"Bad indentation", 1⟩ := by
  exact (claim_C4_malformed_indentation_iff 3 0 [4, 0] "  x" []
    (by decide) (by constructor <;> decide)).mpr (by refine ⟨?_, ?_, ?_, ?_⟩ <;> decide)

/-- C10: whenever the scanner runs to completion without raising, the
emitted token sequence is balanced — the number of `DEDENT` tokens equals
the number of `INDENT` tokens plus one, and the final token is a `DEDENT`.
Moreover `parseStackRun 2 ts = some 1` certifies that the structural
parser's stack discipline (`Parser.parse`, which starts from two frames,
pushes on `INDENT`, pops on `DEDENT` and temporarily pops on `KEY`) never
underflows on the sequence and ends with exactly one frame popped. -/
theorem claim_C10_token_balance (lines : List String) (ts : List Token)
    (h : tokenize lines = Except.ok ts) :
    ts.count Token.dedent = ts.count Token.indent + 1 ∧
    ts.getLast? = some Token.dedent ∧
    parseStackRun 2 ts = some 1 := by
  have hm := tokenizeLoop_ok (lines.length + 1) [0] 0 lines ts (by omega) stackInv_base h
  obtain ⟨hrun, hlast⟩ := hm
  have hrun2 : parseStackRun 2 ts = some 1 := by simpa using hrun
  refine ⟨?_, hlast, hrun2⟩
  have := parseStackRun_counts hrun2
  omega

/-- Witness for C10: the two-line stream `f: / PARAMS: INT a` tokenizes to a
sequence with three `DEDENT`s against two `INDENT`s, ends in a `DEDENT`,
and runs the parser stack from two frames down to one. -/
theorem claim_C10_token_balance_witness :
    ([Token.key "f", Token.indent, Token.key "PARAMS", Token.indent, Token.text "INT a",
      Token.dedent, Token.dedent, Token.dedent].count Token.dedent =
      [Token.key "f", Token.indent, Token.key "PARAMS", Token.indent, Token.text "INT a",
      Token.dedent, Token.dedent, Token.dedent].count Token.indent + 1) ∧
    ([Token.key "f", Token.indent, Token.key "PARAMS", Token.indent, Token.text "INT a",
      Token.dedent, Token.dedent, Token.dedent].getLast? = some Token.dedent) ∧
    parseStackRun 2 [Token.key "f", Token.indent, Token.key "PARAMS", Token.indent,
      Token.text "INT a", Token.dedent, Token.dedent, Token.dedent] = some 1 :=
  claim_C10_token_balance ["f:", "  PARAMS: INT a"] _ (by rfl)

theorem mapM_value_str (m : List String) :
    List.mapM (fun x =>
      match x with
      | Value.str s => Except.ok s
      | _ => Except.error "AttributeError") (m.map Value.str) = Except.ok m := by
  induction m with
  | nil => rfl
  | cons b r ih =>
      rw [List.map_cons, List.mapM_cons, ih]
      rfl

theorem paramOrderTokens_vlist_str (l : List String) :
    Model.paramOrderTokens (some (Value.vlist (l.map Value.str))) = Except.ok l := by
  cases l with
  | nil => rfl
  | cons a t =>
      exact mapM_value_str (a :: t)

theorem updateOrderLoop_members (fname : String) :
    ∀ (toks rest order notSeen : List String) (restIdx : Option Nat),
      (∀ t ∈ toks, t ∈ notSeen) → toks.Nodup → (∀ t ∈ toks, pyStrip t = t) →
      Model.updateOrderLoop fname (toks ++ rest) order notSeen restIdx =
        Model.updateOrderLoop fname rest (order ++ toks)
          (toks.foldl (fun ns t => ns.erase t) notSeen) restIdx := by
  intro toks
  induction toks with
  | nil => intro rest order notSeen restIdx _ _ _; simp
  | cons t ts ih =>
      intro rest order notSeen restIdx hmem hnd hstrip
      have hst : pyStrip t = t := hstrip t (by simp)
      have htm : t ∈ notSeen := hmem t (by simp)
      have ihh := ih rest (order ++ [t]) (notSeen.erase t) restIdx ?_ hnd.of_cons ?_
      rotate_left
      · intro x hx
        have hne : x ≠ t := by
          intro he
          rw [he] at hx
          exact (List.nodup_cons.mp hnd).1 hx
        exact (List.mem_erase_of_ne hne).mpr (hmem x (by simp [hx]))
      · intro x hx
        exact hstrip x (by simp [hx])
      rw [List.cons_append]
      have hstep : Model.updateOrderLoop fname (t :: (ts ++ rest)) order notSeen restIdx =
          Model.updateOrderLoop fname (ts ++ rest) (order ++ [t]) (notSeen.erase t)
            restIdx := by
        simp only [Model.updateOrderLoop]
        rw [hst, if_pos htm]
      rw [hstep, ihh]
      simp only [List.append_assoc, List.singleton_append, List.foldl_cons]

theorem foldl_erase_filter :
    ∀ (toks ns : List String), ns.Nodup →
      toks.foldl (fun a t => a.erase t) ns = ns.filter (fun n => decide (n ∉ toks)) := by
  intro toks
  induction toks with
  | nil =>
      intro ns _
      simp
  | cons t ts ih =>
      intro ns hnd
      rw [List.foldl_cons, ih (ns.erase t) (hnd.erase t)]
      rw [hnd.erase_eq_filter t, List.filter_filter]
      apply List.filter_congr
      intro a _
      by_cases h1 : a = t <;> by_cases h2 : a ∈ ts <;> simp [h1, h2]

theorem updateOrderLoop_mem_notSeen {toks ns : List String} {x : String}
    (hnd : ns.Nodup) (hx : x ∈ toks.foldl (fun a t => a.erase t) ns) : x ∈ ns := by
  rw [foldl_erase_filter toks ns hnd] at hx
  exact (List.mem_filter.mp hx).1

theorem except_bind_ok {α β : Type} (a : α) (f : α → Except String β) :
    (Except.ok a >>= f) = f a := rfl

theorem updateOrderLoop_ellipsis (fname : String) (names pre post : List String)
    (hnd : names.Nodup) (hsub : ∀ t ∈ pre ++ post, t ∈ names)
    (htd : (pre ++ post).Nodup) (hell : "..." ∉ names)
    (hstrip : ∀ t ∈ pre ++ post, pyStrip t = t) :
    Model.updateOrderLoop fname (pre ++ "..." :: post) [] names none =
      Except.ok (pre ++ post, names.filter (fun n => decide (n ∉ pre ++ post)),
        some pre.length) := by
  have hpre_nd : pre.Nodup := (List.nodup_append.mp htd).1
  have hpost_nd : post.Nodup := (List.nodup_append.mp htd).2.1
  have hdisj : pre.Disjoint post := (List.nodup_append.mp htd).2.2
  have h1 := updateOrderLoop_members fname pre ("..." :: post) [] names none
    (fun t ht => hsub t (by simp [ht])) hpre_nd
    (fun t ht => hstrip t (by simp [ht]))
  rw [h1]
  have hns1 : pre.foldl (fun ns t => ns.erase t) names
      = names.filter (fun n => decide (n ∉ pre)) := foldl_erase_filter pre names hnd
  have hell1 : "..." ∉ pre.foldl (fun ns t => ns.erase t) names := by
    intro hx
    exact hell (updateOrderLoop_mem_notSeen hnd hx)
  have h2 : Model.updateOrderLoop fname ("..." :: post) ([] ++ pre)
      (pre.foldl (fun ns t => ns.erase t) names) none =
      Model.updateOrderLoop fname post ([] ++ pre)
        (pre.foldl (fun ns t => ns.erase t) names) (some ([] ++ pre).length) := by
    simp only [Model.updateOrderLoop]
    have hsd : pyStrip "..." = "..." := rfl
    rw [hsd, if_neg hell1, if_pos rfl]
  rw [h2]
  have h3 := updateOrderLoop_members fname post [] ([] ++ pre)
    (pre.foldl (fun ns t => ns.erase t) names) (some ([] ++ pre).length) ?_ hpost_nd
    (fun t ht => hstrip t (by simp [ht]))
  rotate_left
  · intro x hx
    rw [hns1, List.mem_filter]
    refine ⟨hsub x (by simp [hx]), ?_⟩
    simp only [decide_eq_true_eq]
    intro hxp
    exact (hdisj hxp) hx
  rw [List.append_nil] at h3
  rw [h3]
  simp only [Model.updateOrderLoop, List.nil_append, List.append_nil]
  rw [← List.foldl_append]
  rw [foldl_erase_filter _ names hnd]

theorem updateOrderLoop_no_ellipsis (fname : String) (names expl : List String)
    (hnd : names.Nodup) (hsub : ∀ t ∈ expl, t ∈ names) (htd : expl.Nodup)
    (hstrip : ∀ t ∈ expl, pyStrip t = t) :
    Model.updateOrderLoop fname expl [] names none =
      Except.ok (expl, names.filter (fun n => decide (n ∉ expl)), none) := by
  have h1 := updateOrderLoop_members fname expl [] [] names none hsub htd hstrip
  rw [List.append_nil] at h1
  rw [h1]
  simp only [Model.updateOrderLoop, List.nil_append]
  rw [foldl_erase_filter _ names hnd]

instance {ε α : Type} [DecidableEq ε] [DecidableEq α] : DecidableEq (Except ε α) := fun x y =>
  match x, y with
  | Except.ok a, Except.ok b =>
      if h : a = b then Decidable.isTrue (by rw [h]) else Decidable.isFalse (by simp [h])
  | Except.error a, Except.error b =>
      if h : a = b then Decidable.isTrue (by rw [h]) else Decidable.isFalse (by simp [h])
  | Except.ok _, Except.error _ => Decidable.isFalse (by simp)
  | Except.error _, Except.ok _ => Decidable.isFalse (by simp)

/-- C3: the derived parameter order lists the explicitly named parameters in
their `PARAM_ORDER` positions and inserts every parameter not explicitly
named, in declaration order, exactly at the position of the `...` ellipsis
token (conjunct one, for a `PARAM_ORDER` of the form `pre, ..., post`);
without an ellipsis the unlisted parameters are appended at the end
(conjunct two); and for a function with parameters `a, b, c` and
`PARAM_ORDER: "b, ..., a"` the final order is `b, c, a` (conjunct three,
using the comma-separated string form). -/
theorem claim_C3_param_order (fname : String) (names pre post : List String)
    (hnd : names.Nodup) (hsub : ∀ t ∈ pre ++ post, t ∈ names)
    (htd : (pre ++ post).Nodup) (hell : "..." ∉ names)
    (hstrip : ∀ t ∈ pre ++ post, pyStrip t = t) :
    (Model.updateParameterOrder fname names
        (some (Value.vlist ((pre ++ "..." :: post).map Value.str)))
      = Except.ok (pre ++ names.filter (fun n => decide (n ∉ pre ++ post)) ++ post))
    ∧ (Model.updateParameterOrder fname names
        (some (Value.vlist ((pre ++ post).map Value.str)))
      = Except.ok ((pre ++ post) ++ names.filter (fun n => decide (n ∉ pre ++ post))))
    ∧ Model.updateParameterOrder "f" ["a", "b", "c"] (some (Value.str "b, ..., a"))
      = Except.ok ["b", "c", "a"] := by
  refine ⟨?_, ?_, by rfl⟩
  · unfold Model.updateParameterOrder
    rw [paramOrderTokens_vlist_str, except_bind_ok,
        updateOrderLoop_ellipsis fname names pre post hnd hsub htd hell hstrip,
        except_bind_ok]
    by_cases he : (names.filter (fun n => decide (n ∉ pre ++ post))).isEmpty = true
    · simp only [he, if_pos]
      have : names.filter (fun n => decide (n ∉ pre ++ post)) = [] :=
        List.isEmpty_iff.mp he
      rw [this]
      simp
    · simp only [he, if_neg, Bool.false_eq_true, not_false_iff]
      simp only [Option.getD_some]
      rw [List.take_left, List.drop_left]
  · unfold Model.updateParameterOrder
    rw [paramOrderTokens_vlist_str, except_bind_ok,
        updateOrderLoop_no_ellipsis fname names (pre ++ post) hnd hsub htd hstrip,
        except_bind_ok]
    by_cases he : (names.filter (fun n => decide (n ∉ pre ++ post))).isEmpty = true
    · simp only [he, if_pos]
      have : names.filter (fun n => decide (n ∉ pre ++ post)) = [] :=
        List.isEmpty_iff.mp he
      rw [this]
      simp
    · simp only [he, if_neg, Bool.false_eq_true, not_false_iff]
      simp only [Option.getD_none]
      rw [List.take_length, List.drop_length]
      simp

/-- Witness for C3: parameters declared `a, b, c` with the order list
`b, ..., a` yield the final order `b, c, a`. -/
theorem claim_C3_param_order_witness :
    Model.updateParameterOrder "f" ["a", "b", "c"]
        (some (Value.vlist [Value.str "b", Value.str "...", Value.str "a"]))
      = Except.ok ["b", "c", "a"] := by
  have h := (claim_C3_param_order "f" ["a", "b", "c"] ["b"] ["a"]
    (by decide) (by decide) (by decide) (by decide) (by decide)).1
  simpa using h

theorem alookup_eq_none_iff {α : Type} (l : List (String × α)) (k : String) :
    alookup l k = none ↔ k ∉ akeys l := by
  induction l with
  | nil => simp [alookup, akeys]
  | cons e t ih =>
      unfold alookup
      by_cases h : e.1 = k
      · simp [h, akeys]
      · simp [h, akeys, Ne.symm h]
        simpa [akeys] using ih

theorem alookup_isSome_of_mem {α : Type} {l : List (String × α)} {k : String}
    (h : k ∈ akeys l) : (alookup l k).isSome = true := by
  match hv : alookup l k with
  | some _ => rfl
  | none => exact absurd ((alookup_eq_none_iff l k).mp hv) (by simp [h])

theorem akeys_addDependency (res : List (String × Model.ParamSpec)) (n d : String) :
    akeys (Model.addDependency res n d) = akeys res := by
  unfold Model.addDependency akeys
  rw [List.map_map]
  apply List.map_congr_left
  intro e _
  by_cases h : e.1 = n <;> simp [h]

theorem attachOneDep_ok (fname : String) (res : List (String × Model.ParamSpec))
    (pname : String) (ds : List String) (hm : pname ∈ akeys res) :
    ∃ out, Model.attachOneDep fname res pname ds = Except.ok out
      ∧ akeys out = akeys res := by
  induction ds generalizing res with
  | nil => exact ⟨res, rfl, rfl⟩
  | cons d ds ih =>
      unfold Model.attachOneDep
      match hv : alookup res pname with
      | none =>
          exact absurd ((alookup_eq_none_iff res pname).mp hv) (by simp [hm])
      | some p =>
          obtain ⟨out, hout, hk⟩ := ih (Model.addDependency res pname d)
            (by rw [akeys_addDependency]; exact hm)
          exact ⟨out, hout, by rw [hk, akeys_addDependency]⟩

/-- C1 (amended): the dependency-attachment pass of
`_parse_parameter_specifications` succeeds whenever every *left-hand*
parameter of a parsed `DEPS` entry is declared — the dependency names on the
right-hand side are never looked up, so an unresolved `<depN>` is silently
accepted (conjunct one); and it fails with the `RuntimeError` that names the
declaring parameter and the function (but not the dependency) exactly when
the left-hand parameter of an entry is undeclared (conjunct two). -/
theorem claim_C1_dependency_validation (fname : String)
    (res : List (String × Model.ParamSpec)) :
    (∀ entries : List (String × List String),
      (∀ e ∈ entries, e.1 ∈ akeys res) →
      ∃ out, Model.attachDependencies fname res entries = Except.ok out
        ∧ akeys out = akeys res)
    ∧ (∀ (pname : String) (ds : List String) (rest : List (String × List String)),
        pname ∉ akeys res → ds ≠ [] →
        Model.attachDependencies fname res ((pname, ds) :: rest)
          = Except.error (Model.depUnknownArgMsg pname fname)) := by
  constructor
  · intro entries
    induction entries generalizing res with
    | nil => intro _; exact ⟨res, rfl, rfl⟩
    | cons e rest ih =>
        intro hall
        obtain ⟨mid, hmid, hkeys⟩ := attachOneDep_ok fname res e.1 e.2
          (hall e (by simp))
        unfold Model.attachDependencies
        rw [hmid]
        obtain ⟨out, hout, hk2⟩ := ih mid
          (fun x hx => by rw [hkeys]; exact hall x (by simp [hx]))
        exact ⟨out, hout, by rw [hk2, hkeys]⟩
  · intro pname ds rest hnm hne
    match ds, hne with
    | d :: ds2, _ =>
        unfold Model.attachDependencies Model.attachOneDep
        rw [(alookup_eq_none_iff res pname).mpr (by simpa using hnm)]
        rfl

/-- Witness for C1 (amended): with only `a` declared, the entry
`("a", ["b"])` (from `DEPS: "a ON b"`) is accepted even though `b` is not a
parameter, while the entry `("c", ["b"])` fails with the error naming `c`
and the function. -/
theorem claim_C1_dependency_validation_witness :
    (∃ out, Model.attachDependencies "f"
        [("a", { name := "a", type := "INT" })] [("a", ["b"])] = Except.ok out
      ∧ akeys out = akeys [("a", ({ name := "a", type := "INT" } : Model.ParamSpec))])
    ∧ Model.attachDependencies "f" [("a", { name := "a", type := "INT" })]
        [("c", ["b"])]
      = Except.error (Model.depUnknownArgMsg "c" "f") := by
  constructor
  · exact (claim_C1_dependency_validation "f" [("a", { name := "a", type := "INT" })]).1
      [("a", ["b"])] (by intro e he; simp at he; simp [he, akeys])
  · exact (claim_C1_dependency_validation "f" [("a", { name := "a", type := "INT" })]).2
      "c" ["b"] [] (by simp [akeys]) (by simp)

/-- Counterexample for C1 as stated: for function `f` with `PARAMS: "INT a"`
and `DEPS: "a ON b"`, where `b` is not a declared parameter, deriving the
parameters does **not** fail — it succeeds and silently records `b` as a
dependency of `a`. -/
theorem claim_C1_counterexample :
    Model.parseParameterSpecifications
        { name := "f",
          obj := [("PARAMS", Value.str "INT a"), ("DEPS", Value.str "a ON b")] }
      = Except.ok [("a", { name := "a", type := "INT", dependencies := ["b"] })]
    ∧ "b" ∉ akeys [("a", ({ name := "a", type := "INT", dependencies := ["b"] }
        : Model.ParamSpec))] := by
  constructor
  · rfl
  · simp [akeys]

theorem alookup_setEntry_self {α : Type} (l : List (String × α)) (key : String) (v : α) :
    alookup (setEntry l key v) key = some v := by
  induction l with
  | nil => simp [setEntry, alookup]
  | cons e t ih =>
      unfold setEntry
      by_cases h : e.1 = key
      · simp [alookup, h]
      · simp [alookup, h, ih]

theorem alookup_setEntry_ne {α : Type} (l : List (String × α)) (key : String) (v : α)
    (k : String) (h : k ≠ key) : alookup (setEntry l key v) k = alookup l k := by
  induction l with
  | nil => simp [setEntry, alookup, Ne.symm h]
  | cons e t ih =>
      unfold setEntry
      by_cases he : e.1 = key
      · subst he
        simp [alookup, Ne.symm h]
      · simp [alookup, he, ih]

theorem alookup_removeEntry_ne {α : Type} (l : List (String × α)) (key : String)
    (k : String) (h : k ≠ key) : alookup (removeEntry l key) k = alookup l k := by
  induction l with
  | nil => simp [removeEntry]
  | cons e t ih =>
      unfold removeEntry
      by_cases he : e.1 = key
      · subst he
        simp [alookup, Ne.symm h]
      · simp [alookup, he, ih]

theorem alookup_mergeEntry_ne (b : List (String × Value)) (key : String) (v : Value)
    (k : String) (h : k ≠ key) : alookup (mergeEntry b key v) k = alookup b k := by
  induction b with
  | nil => simp [mergeEntry, alookup, Ne.symm h]
  | cons e t ih =>
      unfold mergeEntry
      by_cases he : e.1 = key
      · simp [alookup, he, Ne.symm h]
      · simp [alookup, he, ih]

theorem alookup_mergeEntry_self (b : List (String × Value)) (key : String) (v : Value) :
    alookup (mergeEntry b key v) key
      = some (match alookup b key with | some w => mergeValue w v | none => v) := by
  induction b with
  | nil => simp [mergeEntry, alookup]
  | cons e t ih =>
      unfold mergeEntry
      by_cases he : e.1 = key
      · simp [alookup, he]
      · simp [alookup, he, ih]

theorem alookup_mergeDict_notMem (b n : List (String × Value)) (k : String)
    (h : k ∉ akeys n) : alookup (mergeDict b n) k = alookup b k := by
  induction n generalizing b with
  | nil => rw [mergeDict]
  | cons e rest ih =>
      simp only [akeys, List.map_cons, List.mem_cons, not_or] at h
      match e with
      | (k1, v1) =>
          rw [mergeDict, ih _ (by simpa [akeys] using h.2),
              alookup_mergeEntry_ne _ _ _ _ h.1]

theorem alookup_mergeDict_nodup (b n : List (String × Value)) (k : String) (v : Value)
    (hnd : (akeys n).Nodup) (h : alookup n k = some v) :
    alookup (mergeDict b n) k
      = some (match alookup b k with | some w => mergeValue w v | none => v) := by
  induction n generalizing b with
  | nil => simp [alookup] at h
  | cons e rest ih =>
      simp only [akeys, List.map_cons, List.nodup_cons] at hnd
      match e with
      | (k1, v1) =>
          by_cases hk : k1 = k
          · subst hk
            have hv1 : v1 = v := by simpa [alookup] using h
            subst hv1
            rw [mergeDict, alookup_mergeDict_notMem _ _ _ (by simpa [akeys] using hnd.1),
                alookup_mergeEntry_self]
          · have h2 : alookup rest k = some v := by simpa [alookup, hk] using h
            rw [mergeDict, ih _ (by simpa [akeys] using hnd.2) h2,
                alookup_mergeEntry_ne _ _ _ _ (fun hkk => hk hkk.symm)]

theorem mergeValue_str_left (s : String) (v : Value) :
    mergeValue (Value.str s) v = v := by
  cases v <;> simp [mergeValue]

/-- C2: for every descriptor and every attribute map that defines `PARAMS`
(with the distinct keys of a parsed mapping), `update_from` (i) leaves the
second map's `PARAMS` value — and only it — in the raw attribute map, the
first value being fully discarded through the `""` reset that precedes the
deep merge; (ii) invalidates the cached parameter view; (iii) therefore
makes the `parameters` property recompute the view from the merged raw map
instead of serving the stale cache; and (iv) preserves every attribute key
that the update does not mention (other than the popped `RETURN`) with its
old value. -/
theorem claim_C2_params_replacement (d : Model.FunctionDescriptor) (obj : AttrMap)
    (hP : "PARAMS" ∈ akeys obj) (hnd : (akeys obj).Nodup) :
    alookup (Model.updateFrom d obj).obj "PARAMS" = alookup obj "PARAMS"
    ∧ (Model.updateFrom d obj).parametersCache = none
    ∧ Model.parametersOf (Model.updateFrom d obj)
      = (do
          let ps ← Model.parseParameterSpecifications (Model.updateFrom d obj)
          let po ← Model.updateParameterOrder (Model.updateFrom d obj).name (akeys ps)
            (alookup (Model.updateFrom d obj).obj "PARAM_ORDER")
          Except.ok (ps, { Model.updateFrom d obj with
                           parametersCache := some ps, paramOrder := po }))
    ∧ ∀ k, k ∉ akeys obj → k ≠ "RETURN" →
        alookup (Model.updateFrom d obj).obj k = alookup d.obj k := by
  have hPd : decide ("PARAMS" ∈ akeys obj) = true := decide_eq_true hP
  have hobj : (Model.updateFrom d obj).obj
      = removeEntry (mergeDict
          (if "DEPS" ∈ akeys obj
            then setEntry (setEntry d.obj "PARAMS" (Value.str "")) "DEPS" (Value.str "")
            else setEntry d.obj "PARAMS" (Value.str "")) obj) "RETURN" := by
    unfold Model.updateFrom
    simp [hPd]
  have hcache : (Model.updateFrom d obj).parametersCache = none := by
    unfold Model.updateFrom
    simp [hPd]
  have ho2 : alookup
      (if "DEPS" ∈ akeys obj
        then setEntry (setEntry d.obj "PARAMS" (Value.str "")) "DEPS" (Value.str "")
        else setEntry d.obj "PARAMS" (Value.str "")) "PARAMS" = some (Value.str "") := by
    by_cases hD : "DEPS" ∈ akeys obj
    · rw [if_pos hD, alookup_setEntry_ne _ _ _ _ (by decide)]
      exact alookup_setEntry_self _ _ _
    · rw [if_neg hD]
      exact alookup_setEntry_self _ _ _
  have ho2k : ∀ k, k ∉ akeys obj →
      alookup (if "DEPS" ∈ akeys obj
        then setEntry (setEntry d.obj "PARAMS" (Value.str "")) "DEPS" (Value.str "")
        else setEntry d.obj "PARAMS" (Value.str "")) k = alookup d.obj k := by
    intro k hk
    have hkP : k ≠ "PARAMS" := fun h => hk (h ▸ hP)
    by_cases hD : "DEPS" ∈ akeys obj
    · have hkD : k ≠ "DEPS" := fun h => hk (h ▸ hD)
      rw [if_pos hD, alookup_setEntry_ne _ _ _ _ hkD, alookup_setEntry_ne _ _ _ _ hkP]
    · rw [if_neg hD, alookup_setEntry_ne _ _ _ _ hkP]
  obtain ⟨v, hv⟩ := Option.isSome_iff_exists.mp (alookup_isSome_of_mem hP)
  refine ⟨?_, hcache, ?_, ?_⟩
  · rw [hobj, alookup_removeEntry_ne _ _ _ (by decide),
        alookup_mergeDict_nodup _ _ _ v hnd hv, ho2, hv]
    show some (mergeValue (Value.str "") v) = some v
    rw [mergeValue_str_left]
  · unfold Model.parametersOf
    rw [hcache]
  · intro k hk hkR
    rw [hobj, alookup_removeEntry_ne _ _ _ hkR, alookup_mergeDict_notMem _ _ _ hk]
    exact ho2k k hk

/-- Witness for C2: a descriptor whose first load gave `PARAMS: "INT a"`, a
stale cached view, and an attribute `OLD` absent from the second load; after
`update_from` with `PARAMS: "OUT INT b"` the raw map holds exactly the new
`PARAMS` value, the cache is cleared, and `OLD` keeps its old value. -/
theorem claim_C2_params_replacement_witness :
    alookup (Model.updateFrom
        { name := "f", obj := [("OLD", Value.str "x"), ("PARAMS", Value.str "INT a")],
          parametersCache := some [] }
        [("PARAMS", Value.str "OUT INT b")]).obj "PARAMS"
      = alookup [("PARAMS", Value.str "OUT INT b")] "PARAMS"
    ∧ (Model.updateFrom
        { name := "f", obj := [("OLD", Value.str "x"), ("PARAMS", Value.str "INT a")],
          parametersCache := some [] }
        [("PARAMS", Value.str "OUT INT b")]).parametersCache = none
    ∧ alookup (Model.updateFrom
        { name := "f", obj := [("OLD", Value.str "x"), ("PARAMS", Value.str "INT a")],
          parametersCache := some [] }
        [("PARAMS", Value.str "OUT INT b")]).obj "OLD"
      = some (Value.str "x") := by
  refine ⟨(claim_C2_params_replacement _ _ (by decide) (by decide)).1,
          (claim_C2_params_replacement _ _ (by decide) (by decide)).2.1,
          (claim_C2_params_replacement _ _ (by decide) (by decide)).2.2.2
            "OLD" (by decide) (by decide)⟩

theorem parseAsCommaSeparatedList_removeEntry (o : AttrMap) (k k2 : String)
    (h : k ≠ k2) :
    Model.parseAsCommaSeparatedList (removeEntry o k2) k
      = Model.parseAsCommaSeparatedList o k := by
  unfold Model.parseAsCommaSeparatedList
  rw [alookup_removeEntry_ne _ _ _ h]

theorem mem_listUnion_left {x : String} {a b : List String} (h : x ∈ a) :
    x ∈ listUnion a b := by
  unfold listUnion
  exact List.mem_append_left _ h

/-- C5 (amended): the model `FunctionDescriptor.update_from` unions the
`IGNORE` names parsed from the merged attribute map into `ignored_by`, so
earlier backend names are never removed (conjuncts one and two); but the
generator-side `FunctionDescriptor.update_from` of `generators/base.py`
*replaces* `ignored_by` with the names parsed from a non-empty `IGNORE`
string, discarding all previously accumulated names (conjunct three), and
leaves it untouched only when the update carries no `IGNORE` key
(conjunct four). -/
theorem claim_C5_ignore_semantics (d : Model.FunctionDescriptor) (obj : AttrMap)
    (g : Gen.FunctionDescriptor) (gobj : List (String × String)) :
    ((Model.updateFrom d obj).ignoredBy
        = listUnion d.ignoredBy
            (Model.parseAsCommaSeparatedList (Model.updateFrom d obj).obj "IGNORE"))
    ∧ (∀ x ∈ d.ignoredBy, x ∈ (Model.updateFrom d obj).ignoredBy)
    ∧ (∀ s, alookup gobj "IGNORE" = some s → s ≠ "" →
        (Gen.updateFrom g gobj).ignoredBy
          = (splitChar ',' s.toList).map (fun p => String.mk (trimChars p)))
    ∧ (alookup gobj "IGNORE" = none →
        (Gen.updateFrom g gobj).ignoredBy = g.ignoredBy) := by
  have h1 : (Model.updateFrom d obj).ignoredBy
      = listUnion d.ignoredBy
          (Model.parseAsCommaSeparatedList (Model.updateFrom d obj).obj "IGNORE") := by
    unfold Model.updateFrom
    simp only []
    rw [parseAsCommaSeparatedList_removeEntry _ _ _ (by decide)]
  refine ⟨h1, ?_, ?_, ?_⟩
  · intro x hx
    rw [h1]
    exact mem_listUnion_left hx
  · intro s hs hne
    unfold Gen.updateFrom
    simp only [hs]
    simp [hne]
  · intro hnone
    unfold Gen.updateFrom
    simp [hnone]

/-- Witness for C5 (amended): with `ignored_by = {"A"}` on both descriptor
kinds and an update supplying `IGNORE: "B"`, the model descriptor keeps `A`
while the generator-side descriptor ends up with exactly the parsed names of
`"B"`. -/
theorem claim_C5_ignore_semantics_witness :
    "A" ∈ (Model.updateFrom { name := "f", ignoredBy := ["A"] }
        [("IGNORE", Value.str "B")]).ignoredBy
    ∧ (Gen.updateFrom { ignoredBy := ["A"] } [("IGNORE", "B")]).ignoredBy
      = (splitChar ',' "B".toList).map (fun p => String.mk (trimChars p)) := by
  refine ⟨(claim_C5_ignore_semantics { name := "f", ignoredBy := ["A"] }
        [("IGNORE", Value.str "B")] { ignoredBy := ["A"] }
        [("IGNORE", "B")]).2.1 "A" (by decide),
      (claim_C5_ignore_semantics { name := "f", ignoredBy := ["A"] }
        [("IGNORE", Value.str "B")] { ignoredBy := ["A"] }
        [("IGNORE", "B")]).2.2.1 "B" (by rfl) (by decide)⟩

/-- Counterexample for C5 as stated: the generator-side `update_from` of
`generators/base.py` with `IGNORE: "B"` replaces the previously accumulated
`ignored_by = {"A"}` by `{"B"}` — the earlier backend name `A` is removed,
not unioned. -/
theorem claim_C5_counterexample :
    (Gen.updateFrom { obj := [], ignoredBy := ["A"], returnType := "ERROR" }
        [("IGNORE", "B")]).ignoredBy = ["B"]
    ∧ "A" ∉ (Gen.updateFrom { obj := [], ignoredBy := ["A"], returnType := "ERROR" }
        [("IGNORE", "B")]).ignoredBy := by
  constructor
  · rfl
  · decide

theorem shouldIgnoreFunction_cached (g : Gen.GenState) (fname : String) (b : Bool)
    (h : alookup g.ignoreCache fname = some b) :
    Gen.shouldIgnoreFunction g fname = Except.ok (b, g) := by
  unfold Gen.shouldIgnoreFunction
  rw [h]

theorem shouldIgnoreFunction_cache_after (g g1 : Gen.GenState) (fname : String)
    (b : Bool) (h : Gen.shouldIgnoreFunction g fname = Except.ok (b, g1)) :
    alookup g1.ignoreCache fname = some b := by
  unfold Gen.shouldIgnoreFunction at h
  cases hc : alookup g.ignoreCache fname with
  | some r =>
      rw [hc] at h
      have h' : Except.ok (ε := String) (r, g) = Except.ok (b, g1) := h
      injection h' with h2
      injection h2 with hb hg
      rw [← hg, hc, hb]
  | none =>
      rw [hc] at h
      unfold Gen.shouldIgnoreInner Gen.getFunctionDescriptor at h
      cases hd : alookup g.descriptors fname with
      | none =>
          rw [hd] at h
          exact absurd h (by simp [Bind.bind, Except.bind])
      | some d =>
          rw [hd] at h
          have h' : Except.ok (ε := String)
              ((decide (g.name ∈ d.ignoredBy) : Bool),
                ({ g with ignoreCache :=
                    (fname, (decide (g.name ∈ d.ignoredBy) : Bool)) :: g.ignoreCache }
                  : Gen.GenState)) = Except.ok (b, g1) := h
          injection h' with h2
          injection h2 with hb hg
          rw [← hg, ← hb]
          simp [alookup]

theorem iterFunctionsAux_filter (nm : String) (dsc : String → Gen.FunctionDescriptor)
    (names : List String) : ∀ (g : Gen.GenState), g.name = nm →
    (∀ n ∈ names, alookup g.descriptors n = some (dsc n)) →
    (∀ n b, alookup g.ignoreCache n = some b → b = decide (nm ∈ (dsc n).ignoredBy)) →
    ∃ g2, Gen.iterFunctionsAux g names
        = Except.ok (names.filter (fun n => !decide (nm ∈ (dsc n).ignoredBy)), g2) := by
  induction names with
  | nil => intro g _ _ _; exact ⟨g, rfl⟩
  | cons n ns ih =>
      intro g hname hdesc hcache
      have key : ∃ b g1, Gen.shouldIgnoreFunction g n = Except.ok (b, g1)
          ∧ b = decide (nm ∈ (dsc n).ignoredBy)
          ∧ g1.name = g.name ∧ g1.descriptors = g.descriptors
          ∧ (∀ m c, alookup g1.ignoreCache m = some c
              → c = decide (nm ∈ (dsc m).ignoredBy)) := by
        cases hc : alookup g.ignoreCache n with
        | some b =>
            exact ⟨b, g, shouldIgnoreFunction_cached g n b hc, hcache n b hc,
              rfl, rfl, hcache⟩
        | none =>
            refine ⟨decide (nm ∈ (dsc n).ignoredBy),
              { g with ignoreCache :=
                  (n, (decide (g.name ∈ (dsc n).ignoredBy) : Bool)) :: g.ignoreCache },
              ?_, rfl, rfl, rfl, ?_⟩
            · unfold Gen.shouldIgnoreFunction
              rw [hc]
              unfold Gen.shouldIgnoreInner Gen.getFunctionDescriptor
              rw [hdesc n (by simp), hname]
              rfl
            · intro m c hm
              unfold alookup at hm
              by_cases hmn : n = m
              · subst hmn
                simp only [if_pos rfl] at hm
                injection hm with hm2
                rw [← hm2, hname]
              · simp only [if_neg hmn] at hm
                exact hcache m c hm
      obtain ⟨b, g1, hs, hb, hn1, hd1, hc1⟩ := key
      obtain ⟨g2, hg2⟩ := ih g1 (hn1.trans hname)
        (fun m hm => by rw [hd1]; exact hdesc m (List.mem_cons_of_mem _ hm)) hc1
      refine ⟨g2, ?_⟩
      unfold Gen.iterFunctionsAux
      rw [hs, except_bind_ok]
      show (do
        let r ← Gen.iterFunctionsAux g1 ns
        Except.ok (if b then r.1 else n :: r.1, r.2)) = _
      rw [hg2, except_bind_ok]
      rw [hb]
      by_cases hmem : nm ∈ (dsc n).ignoredBy <;> simp [hmem, List.filter_cons]

/-- C6: on a generator state whose catalog stores, for each declared name,
the descriptor given by `dsc`, with the function `fname` carrying
`ignored_by = {"Foo", "Bar"}` and nothing memoized yet, `iter_functions`
succeeds and lists `fname` exactly when the generator's name is neither
`Foo` nor `Bar` (conjunct one); and whatever state a first
`should_ignore_function` check on `fname` leaves behind, mutating that
function's `ignored_by` set afterwards does not change the result of a later
check — the memoized answer is served from the cache (conjunct two). -/
theorem claim_C6_ignore_iteration_memoized (nm fname : String)
    (descs : List (String × Gen.FunctionDescriptor))
    (dsc : String → Gen.FunctionDescriptor)
    (hdesc : ∀ n ∈ akeys descs, alookup descs n = some (dsc n))
    (hf : fname ∈ akeys descs)
    (hFB : (dsc fname).ignoredBy = ["Foo", "Bar"]) :
    (∃ r, Gen.iterFunctions { name := nm, descriptors := descs } = Except.ok r
       ∧ (fname ∈ r.1 ↔ (nm ≠ "Foo" ∧ nm ≠ "Bar")))
    ∧ ∀ (g0 g1 : Gen.GenState) (b : Bool) (s : List String),
        Gen.shouldIgnoreFunction g0 fname = Except.ok (b, g1) →
        Gen.shouldIgnoreFunction (Gen.setIgnoredBy g1 fname s) fname
          = Except.ok (b, Gen.setIgnoredBy g1 fname s) := by
  constructor
  · obtain ⟨g2, hg2⟩ := iterFunctionsAux_filter nm dsc (akeys descs)
      { name := nm, descriptors := descs } rfl hdesc
      (by intro m c hm; exact absurd hm (by simp [alookup]))
    refine ⟨((akeys descs).filter (fun n => !decide (nm ∈ (dsc n).ignoredBy)), g2),
      hg2, ?_⟩
    simp [List.mem_filter, hf, hFB, not_or]
  · intro g0 g1 b s h
    have hc := shouldIgnoreFunction_cache_after g0 g1 fname b h
    exact shouldIgnoreFunction_cached (Gen.setIgnoredBy g1 fname s) fname b hc

/-- Witness for C6: a catalog with `f` (`ignored_by = {"Foo", "Bar"}`) and
`g` (no ignore set), iterated by a generator named `Foo`: `f` is excluded;
and after the first check has cached `True`, clearing `f`'s `ignored_by`
set does not change the memoized answer. -/
theorem claim_C6_ignore_iteration_memoized_witness :
    (∃ r, Gen.iterFunctions { name := "Foo", descriptors := [("f", { ignoredBy := ["Foo", "Bar"] }), ("g", {})] }
        = Except.ok r ∧ ("f" ∈ r.1 ↔ (("Foo" : String) ≠ "Foo" ∧ ("Foo" : String) ≠ "Bar")))
    ∧ Gen.shouldIgnoreFunction
        (Gen.setIgnoredBy { name := "Foo", descriptors := [("f", { ignoredBy := ["Foo", "Bar"] }), ("g", {})], ignoreCache := [("f", true)] } "f" []) "f"
      = Except.ok (true, Gen.setIgnoredBy { name := "Foo", descriptors := [("f", { ignoredBy := ["Foo", "Bar"] }), ("g", {})], ignoreCache := [("f", true)] } "f" []) := by
  refine ⟨(claim_C6_ignore_iteration_memoized "Foo" "f"
      [("f", { ignoredBy := ["Foo", "Bar"] }), ("g", {})]
      (fun n => if n = "f" then { ignoredBy := ["Foo", "Bar"] } else {})
      (by decide) (by decide) (by decide)).1,
    (claim_C6_ignore_iteration_memoized "Foo" "f"
      [("f", { ignoredBy := ["Foo", "Bar"] }), ("g", {})]
      (fun n => if n = "f" then { ignoredBy := ["Foo", "Bar"] } else {})
      (by decide) (by decide) (by decide)).2
      { name := "Foo", descriptors := [("f", { ignoredBy := ["Foo", "Bar"] }), ("g", {})] }
      { name := "Foo", descriptors := [("f", { ignoredBy := ["Foo", "Bar"] }), ("g", {})], ignoreCache := [("f", true)] }
      true [] (by rfl)⟩

/-- The invariant of a block-based generation job: each block name was
handed to the handler at most once, the cache holds exactly the names whose
handler ran, and each cached content is what the handler produced on that
block's single invocation. -/
def CacheInv (handlerOut : Nat → String → String) (st : Gen.BlockState) : Prop :=
  st.invoked.Nodup
  ∧ (∀ nm, (alookup st.cache nm).isSome = true ↔ nm ∈ st.invoked)
  ∧ (∀ nm c, alookup st.cache nm = some c →
      ∃ k, st.invoked[k]? = some nm ∧ c = handlerOut k nm)

theorem processMarkerLine_spec (hasHandler : String → Bool)
    (handlerOut : Nat → String → String) (st : Gen.BlockState) (line : String)
    (hinv : CacheInv handlerOut st) :
    ∀ r st1, Gen.processMarkerLine hasHandler handlerOut st line = Except.ok (r, st1) →
    CacheInv handlerOut st1
    ∧ (∀ m c, alookup st.cache m = some c → alookup st1.cache m = some c)
    ∧ ((Gen.parseMarker line = none ∧ r = none ∧ st1 = st)
       ∨ (∃ nm0 c, Gen.parseMarker line = some nm0 ∧ r = some c
            ∧ alookup st1.cache (if nm0 = "" then "functions" else nm0) = some c)) := by
  intro r st1 h
  unfold Gen.processMarkerLine at h
  cases hm : Gen.parseMarker line with
  | none =>
      rw [hm] at h
      have h' : Except.ok (ε := String)
          ((none : Option String), st) = Except.ok (r, st1) := h
      injection h' with h2
      injection h2 with hr hst
      exact ⟨hst ▸ hinv, fun m c hc => hst ▸ hc, Or.inl ⟨rfl, hr.symm, hst.symm⟩⟩
  | some nm0 =>
      rw [hm] at h
      have hred : (match alookup st.cache (if nm0 = "" then "functions" else nm0) with
          | some content => Except.ok (ε := String) (some content, st)
          | none =>
              if hasHandler (if nm0 = "" then "functions" else nm0) = true then
                Except.ok (some (handlerOut st.invoked.length
                    (if nm0 = "" then "functions" else nm0)),
                  ({ cache := ((if nm0 = "" then "functions" else nm0),
                        handlerOut st.invoked.length
                          (if nm0 = "" then "functions" else nm0)) :: st.cache,
                     invoked := st.invoked
                        ++ [if nm0 = "" then "functions" else nm0] } : Gen.BlockState))
              else Except.error ("Unhandled block in input file: "
                  ++ (if nm0 = "" then "functions" else nm0)))
          = Except.ok (r, st1) := h
      cases hcc : alookup st.cache (if nm0 = "" then "functions" else nm0) with
      | some c =>
          rw [hcc] at hred
          have h' : Except.ok (ε := String) (some c, st) = Except.ok (r, st1) := hred
          injection h' with h2
          injection h2 with hr hst
          exact ⟨hst ▸ hinv, fun m c' hc => hst ▸ hc,
            Or.inr ⟨nm0, c, rfl, hr.symm, hst ▸ hcc⟩⟩
      | none =>
          rw [hcc] at hred
          cases hh : hasHandler (if nm0 = "" then "functions" else nm0) with
          | false =>
              rw [hh] at hred
              exact absurd hred (by simp)
          | true =>
              rw [hh] at hred
              have h' : Except.ok (ε := String)
                  (some (handlerOut st.invoked.length
                      (if nm0 = "" then "functions" else nm0)),
                    ({ cache := ((if nm0 = "" then "functions" else nm0),
                          handlerOut st.invoked.length
                            (if nm0 = "" then "functions" else nm0)) :: st.cache,
                       invoked := st.invoked
                          ++ [if nm0 = "" then "functions" else nm0] }
                      : Gen.BlockState)) = Except.ok (r, st1) := hred
              injection h' with h2
              injection h2 with hr hst
              obtain ⟨hnd, hiff, hcon⟩ := hinv
              have hnin : (if nm0 = "" then "functions" else nm0) ∉ st.invoked := by
                intro hmem
                have := (hiff _).mpr hmem
                rw [hcc] at this
                simp at this
              refine ⟨?_, ?_, Or.inr ⟨nm0, _, rfl, hr.symm, ?_⟩⟩
              · rw [← hst]
                refine ⟨?_, ?_, ?_⟩
                · simp [List.nodup_append, hnd, hnin]
                · intro m
                  unfold alookup
                  by_cases hem : (if nm0 = "" then "functions" else nm0) = m
                  · simp [hem.symm, hem ▸ hnin]
                  · simp only [if_neg hem]
                    rw [hiff m]
                    constructor
                    · exact fun hmem2 => List.mem_append_left _ hmem2
                    · intro hmem2
                      rcases List.mem_append.mp hmem2 with h1 | h1
                      · exact h1
                      · exact absurd (List.mem_singleton.mp h1)
                          (fun hx => hem hx.symm)
                · intro m c' hc'
                  unfold alookup at hc'
                  by_cases hem : (if nm0 = "" then "functions" else nm0) = m
                  · rw [if_pos hem] at hc'
                    injection hc' with hc2
                    refine ⟨st.invoked.length, ?_, ?_⟩
                    · rw [← hem, List.getElem?_concat_length]
                    · rw [← hc2, hem]
                  · rw [if_neg hem] at hc'
                    obtain ⟨k, hk, hck⟩ := hcon m c' hc'
                    have hklt : k < st.invoked.length := by
                      by_contra hge
                      rw [List.getElem?_eq_none (by omega)] at hk
                      exact Option.noConfusion hk
                    exact ⟨k, by rw [List.getElem?_append_left hklt]; exact hk, hck⟩
              · intro m c' hc'
                rw [← hst]
                unfold alookup
                by_cases hem : (if nm0 = "" then "functions" else nm0) = m
                · rw [← hem, hcc] at hc'
                  exact Option.noConfusion hc'
                · rw [if_neg hem]
                  exact hc'
              · rw [← hst]
                unfold alookup
                rw [if_pos rfl]

theorem generateBlocks_spec (hasHandler : String → Bool)
    (handlerOut : Nat → String → String) :
    ∀ (lines : List String) (st : Gen.BlockState), CacheInv handlerOut st →
    ∀ chunks st2,
      Gen.generateBlocks hasHandler handlerOut st lines = Except.ok (chunks, st2) →
    CacheInv handlerOut st2
    ∧ (∀ m c, alookup st.cache m = some c → alookup st2.cache m = some c)
    ∧ chunks = lines.map (Gen.renderWithCache st2.cache) := by
  intro lines
  induction lines with
  | nil =>
      intro st hinv chunks st2 h
      have h' : Except.ok (ε := String) (([] : List String), st)
          = Except.ok (chunks, st2) := h
      injection h' with h2
      injection h2 with hc hst
      exact ⟨hst ▸ hinv, fun m c hc2 => hst ▸ hc2, by rw [← hc]; simp⟩
  | cons line rest ih =>
      intro st hinv chunks st2 h
      rw [Gen.generateBlocks] at h
      cases hp : Gen.processMarkerLine hasHandler handlerOut st line with
      | error e =>
          rw [hp] at h
          exact absurd h (by simp [Bind.bind, Except.bind])
      | ok p =>
          obtain ⟨r, st1⟩ := p
          rw [hp] at h
          obtain ⟨hinv1, hmono1, hline⟩ :=
            processMarkerLine_spec hasHandler handlerOut st line hinv r st1 hp
          have h2 : (do
              let q ← Gen.generateBlocks hasHandler handlerOut st1 rest
              Except.ok (r.getD line :: q.1, q.2)) = Except.ok (chunks, st2) := h
          cases hg : Gen.generateBlocks hasHandler handlerOut st1 rest with
          | error e =>
              rw [hg] at h2
              exact absurd h2 (by simp [Bind.bind, Except.bind])
          | ok q =>
              obtain ⟨chunks2, st3⟩ := q
              rw [hg] at h2
              obtain ⟨hinv2, hmono2, hchunks⟩ := ih st1 hinv1 chunks2 st3 hg
              have h3 : Except.ok (ε := String) (r.getD line :: chunks2, st3)
                  = Except.ok (chunks, st2) := h2
              injection h3 with h4
              injection h4 with hck hst
              refine ⟨hst ▸ hinv2,
                fun m c hc => hst ▸ hmono2 m c (hmono1 m c hc), ?_⟩
              rw [← hck, ← hst, List.map_cons, hchunks]
              congr 1
              rcases hline with ⟨hpm, hr, hst1⟩ | ⟨nm0, c, hpm, hr, hcl⟩
              · rw [hr]
                unfold Gen.renderWithCache
                rw [hpm]
                rfl
              · rw [hr]
                unfold Gen.renderWithCache
                rw [hpm]
                show (some c).getD line
                  = (alookup st3.cache (if nm0 = "" then "functions" else nm0)).getD line
                rw [hmono2 _ _ hcl]

/-- C7: within one block-based generation job starting from an empty cache,
every distinct block name is handed to the handler at most once — the list
of handler invocations is duplicate-free, the cache holds exactly the names
whose handler ran, and each cached content is the handler's output of that
single run — and every line of the output equals its input line rendered
against the final cache, so all further occurrences of a marker with the
same name (default name `functions` for an empty identifier) show
byte-identical cached content. -/
theorem claim_C7_block_rendered_once (hasHandler : String → Bool)
    (handlerOut : Nat → String → String) (lines chunks : List String)
    (st : Gen.BlockState)
    (h : Gen.generateBlocks hasHandler handlerOut { cache := [], invoked := [] } lines
        = Except.ok (chunks, st)) :
    st.invoked.Nodup
    ∧ chunks = lines.map (Gen.renderWithCache st.cache)
    ∧ (∀ nm c, alookup st.cache nm = some c →
        ∃ k, st.invoked[k]? = some nm ∧ c = handlerOut k nm)
    ∧ (∀ nm, (alookup st.cache nm).isSome = true ↔ nm ∈ st.invoked) := by
  have hinv0 : CacheInv handlerOut { cache := [], invoked := [] } :=
    ⟨List.nodup_nil, fun nm => by simp [alookup], fun nm c hc => by simp [alookup] at hc⟩
  obtain ⟨⟨hnd, hiff, hcon⟩, hmono, hchunks⟩ :=
    generateBlocks_spec hasHandler handlerOut lines _ hinv0 chunks st h
  exact ⟨hnd, hchunks, hcon, hiff⟩

/-- Witness for C7: a job whose input repeats the `foo` marker and ends with
an anonymous marker (block `functions`), against a handler whose output
records its invocation index: the handler ran once per name, and both `foo`
occurrences show the identical cached content `foo0`. -/
theorem claim_C7_block_rendered_once_witness :
    (["foo", "functions"] : List String).Nodup
    ∧ (["foo0", "text", "foo0", "functions1"] : List String)
      = (["% STIMULUS: foo %", "text", "% STIMULUS: foo %", "% STIMULUS %"]
          : List String).map
          (Gen.renderWithCache [("functions", "functions1"), ("foo", "foo0")]) := by
  have h := claim_C7_block_rendered_once (fun x => true)
      (fun k nm => nm ++ toString k)
      ["% STIMULUS: foo %", "text", "% STIMULUS: foo %", "% STIMULUS %"]
      ["foo0", "text", "foo0", "functions1"]
      { cache := [("functions", "functions1"), ("foo", "foo0")],
        invoked := ["foo", "functions"] }
      (by rfl)
  exact ⟨h.1, h.2.1⟩

set_option maxRecDepth 10000 in
/-- C8 (amended): the aggregation policy of `chunk_outconv` is decided by
the count of `OUT`/`INOUT` parameters — zero: the C return value is pushed
through the return type's `OUT` template onto `c_result`/`result`; one: that
parameter becomes `result`; more: the converted values are packed into a
named list — but the aggregate entries are keyed by the *declared* parameter
names in the declaration order of the `PARAMS` string (`retpars`), with
neither `output_name_override` (absent from the generator-side `ParamSpec`)
nor the model layer's `PARAM_ORDER` reordering consulted.  The concrete
scenario `PARAMS: "IN INT a, OUT DOUBLE b, OUT INT c"` yields the two-entry
aggregate keyed `b`, `c` in that order. -/
theorem claim_C8_outconv_policy (types : List (String × Value))
    (deps : List (String × List String)) (returnType : String)
    (params : List (String × Gen.ParamSpec)) (ocs : List String)
    (hocs : params.mapM (fun e => Gen.rcOutconvPar types deps e.1 e.2)
      = Except.ok ocs) :
    (Gen.retparsOf params = [] →
      Gen.chunkOutconv types deps returnType params
        = (do
            let rt ← Gen.lookupTypeE types returnType
            let retconv ← do
              let hasOC ← Gen.vHasKey rt "OUTCONV"
              if hasOC then do
                let ov ← Gen.vGet rt "OUTCONV"
                let s ← Gen.vGetStr ov "OUT"
                Except.ok ("  " ++ s)
              else Except.ok ""
            Except.ok (String.intercalate "\n" (ocs.filter (fun o => o ≠ "")) ++ "\n"
              ++ pyReplace (pyReplace retconv "%C%" "c_result") "%I%" "result")))
    ∧ (∀ p, Gen.retparsOf params = [p] →
        Gen.chunkOutconv types deps returnType params
          = Except.ok (String.intercalate "\n" (ocs.filter (fun o => o ≠ "")) ++ "\n"
              ++ "  result=" ++ p ++ ";"))
    ∧ (2 ≤ (Gen.retparsOf params).length →
        Gen.chunkOutconv types deps returnType params
          = Except.ok (String.intercalate "\n"
              (["  PROTECT(result=NEW_LIST("
                    ++ toString (Gen.retparsOf params).length ++ "));",
                "  PROTECT(names=NEW_CHARACTER("
                    ++ toString (Gen.retparsOf params).length ++ "));"]
                ++ ocs.filter (fun o => o ≠ "")
                ++ Gen.setVectorLines (Gen.retparsOf params)
                ++ Gen.setStringLines (Gen.retparsOf params)
                ++ ["  SET_NAMES(result, names);"]
                ++ ["  UNPROTECT("
                    ++ toString ((Gen.setVectorLines (Gen.retparsOf params)).length + 1)
                    ++ ");"])))
    ∧ Gen.chunkOutconv [("INT", Value.vdict []), ("DOUBLE", Value.vdict [])] [] "ERROR"
        [("a", { name := "a", type := "INT", mode := Model.ParamMode.IN }),
         ("b", { name := "b", type := "DOUBLE", mode := Model.ParamMode.OUT }),
         ("c", { name := "c", type := "INT", mode := Model.ParamMode.OUT })]
      = Except.ok ("  PROTECT(result=NEW_LIST(2));\n  PROTECT(names=NEW_CHARACTER(2));\n  SET_VECTOR_ELT(result, 0, b);\n  SET_VECTOR_ELT(result, 1, c);\n  SET_STRING_ELT(names, 0, CREATE_STRING_VECTOR(\"b\"));\n  SET_STRING_ELT(names, 1, CREATE_STRING_VECTOR(\"c\"));\n  SET_NAMES(result, names);\n  UNPROTECT(3);") := by
  refine ⟨?_, ?_, ?_, by rfl⟩
  · intro hret
    unfold Gen.chunkOutconv
    rw [hocs, except_bind_ok]
    simp only [hret]
    rfl
  · intro p hret
    unfold Gen.chunkOutconv
    rw [hocs, except_bind_ok]
    simp only [hret]
    rfl
  · intro h2
    have h0 : ¬((Gen.retparsOf params).length = 0) := by omega
    have h1 : ¬((Gen.retparsOf params).length = 1) := by omega
    unfold Gen.chunkOutconv
    rw [hocs, except_bind_ok]
    simp only [if_neg h0, if_neg h1]

/-- Witness for C8 (amended): a single `OUT INT b` parameter takes the
one-output branch — `b` itself becomes `result`, no aggregate is built. -/
theorem claim_C8_outconv_policy_witness :
    Gen.chunkOutconv [("INT", Value.vdict [])] [] "ERROR"
        [("b", { name := "b", type := "INT", mode := Model.ParamMode.OUT })]
      = Except.ok "\n  result=b;" :=
  (claim_C8_outconv_policy [("INT", Value.vdict [])] [] "ERROR"
      [("b", { name := "b", type := "INT", mode := Model.ParamMode.OUT })]
      [""] (by rfl)).2.1 "b" (by rfl)

set_option maxRecDepth 10000 in
/-- Counterexample for C8 as stated: with
`PARAMS: "IN INT a, OUT DOUBLE b, OUT INT c"` and `PARAM_ORDER: "c, b"` the
model layer's reordered parameter sequence is `c, b, a`, yet the generator
pipeline parses the parameters in declaration order (ignoring
`PARAM_ORDER`), and `chunk_outconv` keys the aggregate `b` then `c` — not in
the reordered sequence `c` then `b` that the claim requires. -/
theorem claim_C8_counterexample :
    Model.updateParameterOrder "f" ["a", "b", "c"] (some (Value.str "c, b"))
      = Except.ok ["c", "b", "a"]
    ∧ Gen.parseParameterSpecification { name := "RC", descriptors := [("f", { obj := [("PARAMS", "IN INT a, OUT DOUBLE b, OUT INT c"), ("PARAM_ORDER", "c, b")] })] } "f"
      = Except.ok
          [("a", { name := "a", type := "INT", mode := Model.ParamMode.IN }),
           ("b", { name := "b", type := "DOUBLE", mode := Model.ParamMode.OUT }),
           ("c", { name := "c", type := "INT", mode := Model.ParamMode.OUT })]
    ∧ Gen.chunkOutconv [("INT", Value.vdict []), ("DOUBLE", Value.vdict [])] [] "ERROR"
        [("a", { name := "a", type := "INT", mode := Model.ParamMode.IN }),
         ("b", { name := "b", type := "DOUBLE", mode := Model.ParamMode.OUT }),
         ("c", { name := "c", type := "INT", mode := Model.ParamMode.OUT })]
      = Except.ok ("  PROTECT(result=NEW_LIST(2));\n  PROTECT(names=NEW_CHARACTER(2));\n  SET_VECTOR_ELT(result, 0, b);\n  SET_VECTOR_ELT(result, 1, c);\n  SET_STRING_ELT(names, 0, CREATE_STRING_VECTOR(\"b\"));\n  SET_STRING_ELT(names, 1, CREATE_STRING_VECTOR(\"c\"));\n  SET_NAMES(result, names);\n  UNPROTECT(3);")
    ∧ (["b", "c"] : List String) ≠ ["c", "b"] := by
  refine ⟨by rfl, by rfl, by rfl, by decide⟩

theorem rrCheckTypes_ok (typeNames : List String) :
    ∀ params : List (String × Gen.ParamSpec),
    (∀ e ∈ params, e.2.type ∈ typeNames) →
    Gen.rrCheckTypes typeNames params = Except.ok () := by
  intro params
  induction params with
  | nil => intro _; rfl
  | cons e rest ih =>
      intro h
      unfold Gen.rrCheckTypes
      rw [if_pos (h e (by simp))]
      exact ih (fun x hx => h x (by simp [hx]))

theorem rrCheckTypes_error (typeNames : List String) (e : String × Gen.ParamSpec)
    (post : List (String × Gen.ParamSpec)) (he : e.2.type ∉ typeNames) :
    ∀ pre : List (String × Gen.ParamSpec), (∀ x ∈ pre, x.2.type ∈ typeNames) →
    Gen.rrCheckTypes typeNames (pre ++ e :: post)
      = Except.error Gen.rrUnknownTypeMsg := by
  intro pre
  induction pre with
  | nil =>
      intro _
      unfold Gen.rrCheckTypes
      rw [List.nil_append]
      exact if_neg he
  | cons x rest ih =>
      intro h
      rw [List.cons_append]
      unfold Gen.rrCheckTypes
      rw [if_pos (h x (by simp))]
      exact ih (fun y hy => h y (by simp [hy]))

theorem rrFunctionsBlockAux_seq (ns2 : List String) (m : String) :
    ∀ (ns1 : List String) (g : Gen.GenState) (r1 : String × Gen.GenState),
    Gen.rrFunctionsBlockAux g ns1 = Except.ok r1 →
    Gen.rrFunctionsBlockAux r1.2 ns2 = Except.error m →
    Gen.rrFunctionsBlockAux g (ns1 ++ ns2) = Except.error m := by
  intro ns1
  induction ns1 with
  | nil =>
      intro g r1 h1 hm
      have h1' : Except.ok (ε := String) ("", g) = Except.ok r1 := h1
      injection h1' with h2
      rw [List.nil_append]
      rw [← h2] at hm
      exact hm
  | cons n rest ih =>
      intro g r1 h1 hm
      rw [List.cons_append]
      unfold Gen.rrFunctionsBlockAux at h1 ⊢
      cases hs : Gen.shouldIgnoreFunction g n with
      | error e2 =>
          rw [hs] at h1
          exact absurd h1 (by simp [Bind.bind, Except.bind])
      | ok p =>
          obtain ⟨ign, g1⟩ := p
          rw [hs] at h1
          cases ign with
          | true =>
              have h1' : Gen.rrFunctionsBlockAux g1 rest = Except.ok r1 := h1
              exact ih g1 r1 h1' hm
          | false =>
              have h1' : (do
                  let q ← Gen.rrGenerateFunction g1 n
                  let q2 ← Gen.rrFunctionsBlockAux q.2 rest
                  Except.ok (ε := String) (q.1 ++ q2.1, q2.2)) = Except.ok r1 := h1
              show (do
                  let q ← Gen.rrGenerateFunction g1 n
                  let q2 ← Gen.rrFunctionsBlockAux q.2 (rest ++ ns2)
                  Except.ok (ε := String) (q.1 ++ q2.1, q2.2)) = Except.error m
              cases hgen : Gen.rrGenerateFunction g1 n with
              | error e2 =>
                  rw [hgen] at h1'
                  exact absurd h1' (by simp [Bind.bind, Except.bind])
              | ok q =>
                  obtain ⟨txt, g2⟩ := q
                  rw [hgen] at h1'
                  show (do
                      let q2 ← Gen.rrFunctionsBlockAux g2 (rest ++ ns2)
                      Except.ok (ε := String) (txt ++ q2.1, q2.2)) = Except.error m
                  have h1'' : (do
                      let q2 ← Gen.rrFunctionsBlockAux g2 rest
                      Except.ok (ε := String) (txt ++ q2.1, q2.2)) = Except.ok r1 := h1'
                  cases haux : Gen.rrFunctionsBlockAux g2 rest with
                  | error e2 =>
                      rw [haux] at h1''
                      exact absurd h1'' (by simp [Bind.bind, Except.bind])
                  | ok q2 =>
                      obtain ⟨s, g3⟩ := q2
                      rw [haux] at h1''
                      have h1x : Except.ok (ε := String) (txt ++ s, g3)
                          = Except.ok r1 := h1''
                      injection h1x with h2
                      have hm' : Gen.rrFunctionsBlockAux g3 ns2 = Except.error m := by
                        rw [← h2] at hm
                        exact hm
                      rw [ih g2 (s, g3) haux hm']
                      rfl

set_option maxRecDepth 10000 in
/-- C9 (amended, for the R backend): the `RRCodeGenerator` type check passes
exactly when every parameter's type is in the type catalog (conjuncts one
and two; the error is the fixed `StimulusError` text, which names neither
the function nor the offending type — the `{tname!r}` placeholder is left
unformatted in the source); `generate_function` propagates the check failure
as an exception (conjunct three); and that exception is caught nowhere in
the block driver: a failing function makes the whole functions block — and
with it the job — fail, with no comment or diagnostic marker substituted
and all later functions left unrendered (conjuncts four and five). -/
theorem claim_C9_unknown_type_aborts (typeNames : List String)
    (g gf : Gen.GenState) (ns1 ns2 : List String) (f : String) :
    (∀ params : List (String × Gen.ParamSpec),
      (∀ e ∈ params, e.2.type ∈ typeNames) →
      Gen.rrCheckTypes typeNames params = Except.ok ())
    ∧ (∀ (pre post : List (String × Gen.ParamSpec)) (e : String × Gen.ParamSpec),
        (∀ x ∈ pre, x.2.type ∈ typeNames) → e.2.type ∉ typeNames →
        Gen.rrCheckTypes typeNames (pre ++ e :: post)
          = Except.error Gen.rrUnknownTypeMsg)
    ∧ (∀ (spec : Gen.FunctionDescriptor)
        (pr : List (String × Gen.ParamSpec) × Gen.GenState)
        (dr : List (String × List String) × Gen.GenState) (m : String),
        Gen.getFunctionDescriptor g f = Except.ok spec →
        Gen.getParametersForFunction g f = Except.ok pr →
        Gen.getDependenciesForFunction pr.2 f = Except.ok dr →
        Gen.rrCheckTypes (akeys dr.2.types) pr.1 = Except.error m →
        Gen.rrGenerateFunction g f = Except.error m)
    ∧ (∀ m : String, Gen.shouldIgnoreFunction g f = Except.ok (false, gf) →
        Gen.rrGenerateFunction gf f = Except.error m →
        Gen.rrFunctionsBlockAux g (f :: ns2) = Except.error m)
    ∧ (∀ (r1 : String × Gen.GenState) (m : String),
        Gen.rrFunctionsBlockAux g ns1 = Except.ok r1 →
        Gen.rrFunctionsBlockAux r1.2 ns2 = Except.error m →
        Gen.rrFunctionsBlockAux g (ns1 ++ ns2) = Except.error m) := by
  refine ⟨rrCheckTypes_ok typeNames, ?_, ?_, ?_, ?_⟩
  · intro pre post e hpre he
    exact rrCheckTypes_error typeNames e post he pre hpre
  · intro spec pr dr m hspec hpr hdr hct
    unfold Gen.rrGenerateFunction
    rw [hspec]
    simp only [except_bind_ok]
    rw [hpr]
    simp only [except_bind_ok]
    rw [hdr]
    simp only [except_bind_ok]
    rw [hct]
    rfl
  · intro m hs hgen
    unfold Gen.rrFunctionsBlockAux
    rw [hs, except_bind_ok]
    show (do
        let q ← Gen.rrGenerateFunction gf f
        let q2 ← Gen.rrFunctionsBlockAux q.2 ns2
        Except.ok (ε := String) (q.1 ++ q2.1, q2.2)) = Except.error m
    rw [hgen]
    rfl
  · intro r1 m h1 hm
    exact rrFunctionsBlockAux_seq ns2 m ns1 g r1 h1 hm

set_option maxRecDepth 10000 in
/-- Witness for C9 (amended): a catalog whose only function uses the
undeclared type `WEIRD`; the functions block of the R job fails with the
(not even formatted) unknown-type message instead of emitting a comment and
moving on. -/
theorem claim_C9_unknown_type_aborts_witness :
    Gen.rrFunctionsBlockAux
        { name := "R-R", descriptors := [("igraph_f", { obj := [("PARAMS", "WEIRD x")] })], types := [("INT", Value.vdict [])] }
        ["igraph_f"]
      = Except.error Gen.rrUnknownTypeMsg :=
  (claim_C9_unknown_type_aborts []
      { name := "R-R", descriptors := [("igraph_f", { obj := [("PARAMS", "WEIRD x")] })], types := [("INT", Value.vdict [])] }
      { name := "R-R", descriptors := [("igraph_f", { obj := [("PARAMS", "WEIRD x")] })], types := [("INT", Value.vdict [])], ignoreCache := [("igraph_f", false)] }
      [] [] "igraph_f").2.2.2.1 Gen.rrUnknownTypeMsg (by rfl) (by rfl)

set_option maxRecDepth 10000 in
/-- Counterexample for C9 as stated: with a first function of unknown
parameter type and a perfectly renderable second function, the whole R
functions block is an error — the job aborts, no comment marker is written,
and the second function is never rendered; the error text is the literal
unformatted `StimulusError` message. -/
theorem claim_C9_counterexample :
    Gen.rrFunctionsBlock
        { name := "R-R", descriptors := [("igraph_f", { obj := [("PARAMS", "WEIRD x")] }), ("igraph_g", { obj := [("PARAMS", "INT y")] })], types := [("INT", Value.vdict [])] }
      = Except.error Gen.rrUnknownTypeMsg
    ∧ Gen.rrUnknownTypeMsg = "Unknown type encountered: \x7btname!r\x7d" :=
  ⟨by rfl, by rfl⟩
